import Mathlib

/-!
Shallow embedding of the micrograd tensor autodiff engine
(src/micrograd/engine.py) and proofs about it.

The engine stores, per graph node, a numpy tensor `data`, an optional
gradient tensor `grad`, the set of parent nodes, and closures for the
forward recomputation and the backward gradient contribution.  We embed
the graph as an append-only arena of nodes indexed by `Nat` (parents
always have smaller indices), tensors as a shape together with row-major
flat data, and scalar entries as `FloatVal`: exact rationals extended
with the two infinities and a not-a-number element, following IEEE
arithmetic on those special values (the engine relies on numpy floats
only through nan/inf propagation and exact small arithmetic in every
behaviour treated here, so rationals model the finite values faithfully).
-/

/-- Exact rational addition written through `mkRat` so that the kernel
can evaluate it on concrete inputs; equal to `a + b` (bridge lemma
below). -/
def qadd (a b : ℚ) : ℚ := mkRat (a.num * b.den + b.num * a.den) (a.den * b.den)

/-- Exact rational multiplication through `mkRat`; equal to `a * b`. -/
def qmul (a b : ℚ) : ℚ := mkRat (a.num * b.num) (a.den * b.den)

/-- Exact rational negation through `mkRat`; equal to `-a`. -/
def qneg (a : ℚ) : ℚ := mkRat (-a.num) a.den

/-- Exact rational division through `mkRat`; equal to `a / b` (with the
usual `a / 0 = 0` convention, though the engine model never divides by
a zero rational along this path). -/
def qdiv (a b : ℚ) : ℚ :=
  mkRat (if 0 ≤ b.num then a.num * b.den else -(a.num * b.den)) (a.den * b.num.natAbs)

/-- Scalar entries of the engine's tensors: finite rationals plus the
IEEE special values `inf`, `-inf` and not-a-number. -/
inductive FloatVal where
  | fin (q : ℚ)
  | inf
  | ninf
  | nan
deriving DecidableEq, Repr

/-- IEEE-style addition on extended values (numpy elementwise `+`). -/
def FloatVal.add : FloatVal → FloatVal → FloatVal
  | .nan, _ => .nan
  | _, .nan => .nan
  | .inf, .ninf => .nan
  | .ninf, .inf => .nan
  | .inf, _ => .inf
  | _, .inf => .inf
  | .ninf, _ => .ninf
  | _, .ninf => .ninf
  | .fin a, .fin b => .fin (qadd a b)

/-- IEEE-style multiplication on extended values (numpy elementwise `*`). -/
def FloatVal.mul : FloatVal → FloatVal → FloatVal
  | .nan, _ => .nan
  | _, .nan => .nan
  | .fin a, .fin b => .fin (qmul a b)
  | .inf, .fin b => if 0 < b then .inf else if b < 0 then .ninf else .nan
  | .ninf, .fin b => if 0 < b then .ninf else if b < 0 then .inf else .nan
  | .fin a, .inf => if 0 < a then .inf else if a < 0 then .ninf else .nan
  | .fin a, .ninf => if 0 < a then .ninf else if a < 0 then .inf else .nan
  | .inf, .inf => .inf
  | .inf, .ninf => .ninf
  | .ninf, .inf => .ninf
  | .ninf, .ninf => .inf

/-- Negation on extended values. -/
def FloatVal.neg : FloatVal → FloatVal
  | .fin a => .fin (qneg a)
  | .inf => .ninf
  | .ninf => .inf
  | .nan => .nan

/-- Subtraction on extended values. -/
def FloatVal.sub (a b : FloatVal) : FloatVal := a.add b.neg

/-- IEEE-style division on extended values.  The model has a single
zero (numpy's `+0.0`), so finite / 0 is `inf` or `-inf` by the sign of
the numerator and `nan` for 0 / 0, exactly as numpy warns-and-returns. -/
def FloatVal.div : FloatVal → FloatVal → FloatVal
  | .nan, _ => .nan
  | _, .nan => .nan
  | .fin a, .fin b =>
      if b = 0 then (if 0 < a then .inf else if a < 0 then .ninf else .nan)
      else .fin (qdiv a b)
  | .fin _, .inf => .fin 0
  | .fin _, .ninf => .fin 0
  | .inf, .fin b => if 0 ≤ b then .inf else .ninf
  | .ninf, .fin b => if 0 ≤ b then .ninf else .inf
  | .inf, .inf => .nan
  | .inf, .ninf => .nan
  | .ninf, .inf => .nan
  | .ninf, .ninf => .nan

/-- Ordered comparison `a <= b`; any comparison with not-a-number is
false, as in numpy. -/
def FloatVal.le : FloatVal → FloatVal → Bool
  | .nan, _ => false
  | _, .nan => false
  | .ninf, _ => true
  | _, .inf => true
  | .inf, _ => false
  | _, .ninf => false
  | .fin a, .fin b => decide (a ≤ b)

/-- Comparison `a >= b` (numpy `>=`). -/
def FloatVal.ge (a b : FloatVal) : Bool := FloatVal.le b a

/-- Tensors: a shape and the row-major flat list of entries, matching a
dense numpy ndarray. -/
structure Tensor where
  shape : List Nat
  data : List FloatVal
deriving DecidableEq, Repr

/-- Well-formedness: the flat data has exactly one entry per index. -/
def Tensor.wf (t : Tensor) : Prop := t.data.length = t.shape.prod

instance (t : Tensor) : Decidable t.wf :=
  inferInstanceAs (Decidable (t.data.length = t.shape.prod))

/-- All multi-indices of a shape, enumerated in row-major order. -/
def allIdx : List Nat → List (List Nat)
  | [] => [[]]
  | d :: ds => (List.range d).flatMap (fun i => (allIdx ds).map (fun is => i :: is))

/-- Row-major flat position of a multi-index. -/
def flatPos : List Nat → List Nat → Nat
  | _, [] => 0
  | [], _ :: _ => 0
  | _ :: ds, i :: is => i * ds.prod + flatPos ds is

/-- Multi-index of a row-major flat position. -/
def unflatten : List Nat → Nat → List Nat
  | [], _ => []
  | _ :: ds, p => (p / ds.prod) :: unflatten ds (p % ds.prod)

/-- Broadcasting of one dimension against another (numpy rule: equal, or
one of them is 1). -/
def bdim : Nat → Nat → Option Nat
  | 1, d => some d
  | d, 1 => some d
  | d, e => if d = e then some d else none

/-- Broadcast two shapes given with their axes reversed (trailing axis
first). -/
def bcastRev : List Nat → List Nat → Option (List Nat)
  | [], l => some l
  | l, [] => some l
  | d :: ds, e :: es => do
      let f ← bdim d e
      let fs ← bcastRev ds es
      pure (f :: fs)

/-- Numpy broadcast of two shapes (align trailing axes). -/
def bcast (s1 s2 : List Nat) : Option (List Nat) :=
  (bcastRev s1.reverse s2.reverse).map List.reverse

/-- Clamp a multi-index of a (broadcast) output shape down to a valid
multi-index of an operand's shape: keep the trailing components and send
each component along a size-1 axis to 0. -/
def clampIx (s ix : List Nat) : List Nat :=
  List.zipWith (fun d i => if d = 1 then 0 else i) s (ix.drop (ix.length - s.length))

/-- Entry of a tensor at a multi-index of its own shape. -/
def Tensor.el (t : Tensor) (ix : List Nat) : FloatVal :=
  t.data.getD (flatPos t.shape ix) .nan

/-- Entry of a tensor at a multi-index of a broadcast output shape. -/
def Tensor.bEl (t : Tensor) (ix : List Nat) : FloatVal :=
  t.el (clampIx t.shape ix)

/-- Constant tensor of a given shape. -/
def constT (s : List Nat) (c : FloatVal) : Tensor :=
  ⟨s, List.replicate s.prod c⟩

/-- All-zeros tensor (numpy `zeros`). -/
def zerosT (s : List Nat) : Tensor := constT s (.fin 0)

/-- All-ones tensor (numpy `ones`). -/
def onesT (s : List Nat) : Tensor := constT s (.fin 1)

/-- Elementwise binary operation with numpy broadcasting; `none` when
the shapes are not broadcast-compatible (numpy raises). -/
def ewB (f : FloatVal → FloatVal → FloatVal) (a b : Tensor) : Option Tensor :=
  (bcast a.shape b.shape).map
    (fun s => ⟨s, (allIdx s).map (fun ix => f (a.bEl ix) (b.bEl ix))⟩)

/-- Elementwise unary map on a tensor. -/
def Tensor.map1 (f : FloatVal → FloatVal) (t : Tensor) : Tensor :=
  ⟨t.shape, t.data.map f⟩

/-- Broadcast a tensor to a target shape it is compatible with
(the first component of numpy `broadcast_arrays`). -/
def bArr (t : Tensor) (s : List Nat) : Tensor :=
  ⟨s, (allIdx s).map (fun ix => t.bEl ix)⟩

/-- Assemble a full multi-index of rank `nd` from values assigned to
axis positions by the two association lists (axis, value). -/
def assemble (nd : Nat) (freeP contrP : List (Nat × Nat)) : List Nat :=
  (List.range nd).map (fun d =>
    ((contrP.lookup d).orElse (fun _ => freeP.lookup d)).getD 0)

/-- Sum of a tensor over a list of (already normalized) axes, the
remaining axes keeping their order (numpy `sum` with an axis tuple; the
empty-remainder case is the scalar full sum). -/
def sumT (t : Tensor) (l : List Nat) : Tensor :=
  let n := t.shape.length
  let keep := (List.range n).filter (fun d => decide (d ∉ l))
  let kshape := keep.map (fun d => t.shape.getD d 0)
  let sshape := l.map (fun d => t.shape.getD d 0)
  ⟨kshape, (allIdx kshape).map (fun ix =>
    (allIdx sshape).foldl (fun acc ks =>
      FloatVal.add acc (t.el (assemble n (keep.zip ix) (l.zip ks)))) (.fin 0))⟩

/-- The engine's `de_neg` lambda `ndim + x if x < 0 else x`: a negative
axis has the rank added once; an axis below `-n` stays negative, and an
axis at or above `n` stays as it is (numpy then raises on either). -/
def deNeg (n : Nat) (i : Int) : Int :=
  if i < 0 then (n : Int) + i else i

/-- Read validated (non-negative, in-range) normalized axes as list
positions. -/
def axPos (l : List Int) : List Nat := l.map Int.toNat

/-- Numpy `expand_dims`: insert size-1 axes at the listed positions of
the result, negative positions counted from the end of the expanded
shape; `none` when a normalized position is out of range or repeated
(numpy raises `AxisError`).  The row-major flat data is unchanged. -/
def expandDims (t : Tensor) (pos : List Int) : Option Tensor :=
  let N := t.shape.length + pos.length
  let q := pos.map (deNeg N)
  if q.Nodup ∧ ∀ d ∈ q, 0 ≤ d ∧ d < (N : Int) then
    let ps := axPos q
    some ⟨(List.range N).map (fun d =>
      if d ∈ ps then 1 else t.shape.getD (d - ps.countP (fun a => decide (a < d))) 0),
      t.data⟩
  else none

/-- Numpy `transpose` with no axis argument: reverse the axis order. -/
def transposeT (t : Tensor) : Tensor :=
  ⟨t.shape.reverse, (allIdx t.shape.reverse).map (fun ix => t.el ix.reverse)⟩

/-- Numpy `tensordot` with explicit axis lists: contract the paired
axes (given possibly negative) and keep each operand's free axes in
order, the left operand's first.  `none` when the axis lists are
invalid or paired dimensions disagree (numpy raises). -/
def tdotFn (a b : Tensor) (axA axB : List Int) : Option Tensor :=
  let na := a.shape.length
  let nb := b.shape.length
  let pA := axA.map (deNeg na)
  let pB := axB.map (deNeg nb)
  if pA.length = pB.length ∧ pA.Nodup ∧ pB.Nodup ∧
     (∀ x ∈ pA, 0 ≤ x ∧ x < (na : Int)) ∧ (∀ x ∈ pB, 0 ≤ x ∧ x < (nb : Int)) ∧
     (axPos pA).map (fun d => a.shape.getD d 0) =
       (axPos pB).map (fun d => b.shape.getD d 0) then
    let qA := axPos pA
    let qB := axPos pB
    let freeA := (List.range na).filter (fun d => decide (d ∉ qA))
    let freeB := (List.range nb).filter (fun d => decide (d ∉ qB))
    let oshape := freeA.map (fun d => a.shape.getD d 0) ++
                  freeB.map (fun d => b.shape.getD d 0)
    let cshape := qA.map (fun d => a.shape.getD d 0)
    some ⟨oshape, (allIdx oshape).map (fun ix =>
      (allIdx cshape).foldl (fun acc kc =>
        FloatVal.add acc (FloatVal.mul
          (a.el (assemble na (freeA.zip (ix.take freeA.length)) (qA.zip kc)))
          (b.el (assemble nb (freeB.zip (ix.drop freeA.length)) (qB.zip kc)))))
        (.fin 0))⟩
  else none

/-- The operation that produced a node, holding the parent indices and
static operator data (the engine's `_op` tag together with the data the
per-node closures capture).  `leaf` is a data-constructed node with no
name; `ph` is a named placeholder. -/
inductive Op where
  | leaf
  | ph (name : String)
  | add (l r : Nat)
  | mul (l r : Nat)
  | log (src : Nat)
  | arctanh (src : Nat)
  | sum (src : Nat) (ax : Option (List Int) × Option Int)
  | tdot (l r : Nat) (axes : Nat)
deriving DecidableEq, Repr

/-- The axis argument of `Value.sum`: `none`, an int, or a tuple.
First component set = tuple argument, second set = int argument,
neither set = None. -/
abbrev AxisArg := Option (List Int) × Option Int

/-- Normalize an axis argument against a rank `n`, as the sum method's
captured `_axis` does: None means all axes, an int or tuple is mapped
through `de_neg` (which may leave an out-of-range axis negative or
beyond the rank; numpy rejects those). -/
def normAxes (n : Nat) : AxisArg → List Int
  | (some l, _) => l.map (deNeg n)
  | (none, some i) => [deNeg n i]
  | (none, none) => (List.range n).map (fun d => (d : Int))

/-- A graph node: its producing operation and its (immutable) shape
attribute. -/
structure Value where
  op : Op
  shape : List Nat
deriving DecidableEq, Repr

/-- The computation graph: an append-only arena of nodes; every node's
parents have smaller indices. -/
abbrev Graph := List Value

/-- Parent indices of an operation (the engine's `_prev`, as the ordered
list the operator constructor passes). -/
def Op.parents : Op → List Nat
  | .leaf => []
  | .ph _ => []
  | .add l r => [l, r]
  | .mul l r => [l, r]
  | .log s => [s]
  | .arctanh s => [s]
  | .sum s _ => [s]
  | .tdot l r _ => [l, r]

/-- Node lookup with a harmless default for out-of-range indices. -/
def nodeOf (g : Graph) (i : Nat) : Value := g.getD i ⟨.leaf, []⟩

/-- Rank of a node (the engine's `ndim` property on the shape attribute). -/
def ndimOf (g : Graph) (i : Nat) : Nat := (nodeOf g i).shape.length

/-- Errors surfaced by the engine: a failed numpy broadcast or axis
validation (ValueError), a failed in-place gradient accumulation
(ValueError on a non-broadcastable output operand), a gradient read
before allocation, and a failed shape assertion. -/
inductive Err where
  | broadcast
  | accum
  | noGrad
  | shapeAssert
deriving DecidableEq, Repr

/-- Depth-first postorder traversal building the topological order:
visit every parent before appending the node, guarded by membership in
the accumulated list.  `fuel` bounds the recursion depth; parents have
smaller indices, so `root + 1` fuel always suffices. -/
def dfs (g : Graph) : Nat → Nat → List Nat → List Nat
  | 0, _, acc => acc
  | fuel + 1, v, acc =>
      if v ∈ acc then acc
      else ((nodeOf g v).op.parents.foldl (fun a c => dfs g fuel c a) acc) ++ [v]

/-- The engine's `build_topology`: topological order of all ancestors
of a root, every node after its parents. -/
def topoList (g : Graph) (root : Nat) : List Nat := dfs g (root + 1) root []

/-- Dynamic per-node tensors during a pass: the `data` attribute of each
node, indexed like the graph. -/
abbrev DataSt := List Tensor

/-- Dynamic gradient state: the optional `grad` attribute of each node. -/
abbrev GradSt := List (Option Tensor)

/-- Data lookup with an empty default tensor for out-of-range indices. -/
def dataOf (d : DataSt) (i : Nat) : Tensor := d.getD i ⟨[], []⟩

def liftO {α : Type} (e : Err) : Option α → Except Err α
  | some a => .ok a
  | none => .error e

/-- Read a node's gradient; `None` means the array was never allocated,
and using it in an accumulation is a fatal error. -/
def needGrad (gs : GradSt) (i : Nat) : Except Err Tensor :=
  match gs.getD i none with
  | some t => .ok t
  | none => .error .noGrad

/-- Numpy in-place `a += b`: the broadcast of the two shapes must be
exactly the target's shape, otherwise numpy raises ValueError
(a non-broadcastable output operand). -/
def iadd (a b : Tensor) : Except Err Tensor :=
  match ewB FloatVal.add a b with
  | some t => if t.shape = a.shape then .ok t else .error .accum
  | none => .error .accum

/-- Accumulate a backward contribution into a parent's gradient buffer. -/
def accumAt (i : Nat) (c : Tensor) (gs : GradSt) : Except Err GradSt := do
  let gi ← needGrad gs i
  let gi' ← iadd gi c
  .ok (gs.set i (some gi'))

/-- The backward contribution an `add` output applies to one operand:
the output gradient, reduce-summed over the leading axes that were
broadcast away when the operand's rank is smaller than the output's. -/
def addContrib (g : Graph) (v p : Nat) (og : Tensor) : Tensor :=
  if ndimOf g p < ndimOf g v
  then sumT og (List.range (ndimOf g v - ndimOf g p))
  else og

/-- One node's `_backward` closure: reads the node's own gradient and
its parents' data, and adds the operator's local-gradient contribution
into each parent's gradient, in the order the source performs the two
in-place additions. -/
def backstep (g : Graph) (d : DataSt) (v : Nat) (gs : GradSt) : Except Err GradSt :=
  match (nodeOf g v).op with
  | .leaf => .ok gs
  | .ph _ => .ok gs
  | .add l r => do
      let og ← needGrad gs v
      let gs ← accumAt l (addContrib g v l og) gs
      accumAt r (addContrib g v r og) gs
  | .mul l r => do
      let og ← needGrad gs v
      let pl ← liftO .broadcast (ewB FloatVal.mul (dataOf d r) og)
      let gs ← accumAt l
        (if ndimOf g l < ndimOf g v
         then sumT pl (List.range (ndimOf g v - ndimOf g l)) else pl) gs
      let pr ← liftO .broadcast (ewB FloatVal.mul (dataOf d l) og)
      accumAt r
        (if ndimOf g r < ndimOf g v
         then sumT pr (List.range (ndimOf g v - ndimOf g r)) else pr) gs
  | .log s => do
      let og ← needGrad gs v
      let valid := (dataOf d s).map1 (fun x => if x.ge (.fin 0) then x else .nan)
      let c ← liftO .broadcast (ewB FloatVal.mul (valid.map1 (FloatVal.div (.fin 1))) og)
      accumAt s c gs
  | .arctanh s => do
      let og ← needGrad gs v
      let valid := (dataOf d s).map1
        (fun x => if (FloatVal.le (.fin (-1)) x && FloatVal.le x (.fin 1)) then x else .nan)
      let c ← liftO .broadcast
        (ewB FloatVal.mul
          (valid.map1 (fun x => FloatVal.div (.fin 1) (FloatVal.sub (.fin 1) (x.mul x)))) og)
      accumAt s c gs
  | .sum s ax => do
      let og ← needGrad gs v
      let eg ← liftO .broadcast (expandDims og (normAxes (ndimOf g s) ax))
      let bs ← liftO .broadcast (bcast eg.shape (dataOf d s).shape)
      accumAt s (bArr eg bs) gs
  | .tdot l r k => do
      let og ← needGrad gs v
      let cl ← liftO .broadcast
        (tdotFn og (transposeT (dataOf d r))
          ((List.range (ndimOf g r - k)).map (fun j => (-1 : Int) - (j : Int)))
          ((List.range (ndimOf g r - k)).map (fun j => (j : Int))))
      let gs ← accumAt l cl gs
      let cr ← liftO .broadcast
        (tdotFn (transposeT (dataOf d l)) og
          ((List.range (ndimOf g l - k)).map (fun j => (-1 : Int) - (j : Int)))
          ((List.range (ndimOf g l - k)).map (fun j => (j : Int))))
      accumAt r cr gs

/-- Gradient seeding of one node during `backward`: ones for the root,
zeros for every other node, shaped like the node (allocating or filling
an existing buffer produce the same tensors). -/
def seedVal (g : Graph) (root v : Nat) : Tensor :=
  constT (nodeOf g v).shape (if v = root then .fin 1 else .fin 0)

/-- Seed every node of the topological order. -/
def seedGrads (g : Graph) (root : Nat) (topo : List Nat) (gs : GradSt) : GradSt :=
  topo.foldl (fun a v => a.set v (some (seedVal g root v))) gs

/-- The engine's `backward`: build the topological order, seed every
node's gradient (ones at the root, zeros elsewhere), then run each
node's backward closure in reverse topological order.  (The
run-forward-first warning on an all-nan root value is diagnostic only
and does not affect gradients, so it is not tracked here.) -/
def Value.backward (g : Graph) (root : Nat) (d : DataSt) (gs : GradSt) :
    Except Err GradSt :=
  let topo := topoList g root
  (topo.reverse).foldlM (fun a v => backstep g d v a) (seedGrads g root topo gs)

/-- Builder state: the arena of nodes together with each node's current
data tensor. -/
structure Net where
  nodes : Graph
  data : DataSt
deriving Repr

/-- The empty graph. -/
def Net.empty : Net := ⟨[], []⟩

/-- Append a node with its initial data; returns the new node's index. -/
def Net.push (net : Net) (op : Op) (t : Tensor) : Net × Nat :=
  (⟨net.nodes ++ [⟨op, t.shape⟩], net.data ++ [t]⟩, net.nodes.length)

/-- Construct a leaf node from a concrete tensor (the data-providing
`Value` constructor; its shape attribute is derived from the data). -/
def Value.leaf (t : Tensor) (net : Net) : Net × Nat :=
  net.push .leaf t

/-- Construct a named placeholder node of a declared shape; its data is
the all-not-a-number sentinel until a forward pass binds it. -/
def Value.placeholder (name : String) (shape : List Nat) (net : Net) : Net × Nat :=
  net.push (.ph name) (constT shape .nan)

/-- The engine's `__add__`: eagerly computes `self.data + other.data`
(numpy broadcasting; ValueError when incompatible) and wires the node. -/
def Value.add (l r : Nat) (net : Net) : Except Err (Net × Nat) := do
  let t ← liftO .broadcast (ewB FloatVal.add (dataOf net.data l) (dataOf net.data r))
  .ok (net.push (.add l r) t)

/-- The engine's `__mul__`. -/
def Value.mul (l r : Nat) (net : Net) : Except Err (Net × Nat) := do
  let t ← liftO .broadcast (ewB FloatVal.mul (dataOf net.data l) (dataOf net.data r))
  .ok (net.push (.mul l r) t)

/-- Natural log on an extended value, on the part of its behaviour the
engine observes.  Modelled from the spec for the supplied numpy
primitive: log of a negative value or of nan is nan and log 0 is -inf;
a positive rational's real log is irrational, hence not representable
in this scalar model, and no claim reads it, so the positive-finite
branch is abstracted to nan (an explicit abstraction of the
external array library, not of the engine). -/
def flog : FloatVal → FloatVal
  | .nan => .nan
  | .inf => .inf
  | .ninf => .nan
  | .fin q => if q = 0 then .ninf else .nan

/-- Inverse hyperbolic tangent on an extended value, on the part of its
behaviour the engine observes.  Modelled from the spec for the supplied
numpy primitive: outside [-1, 1] (and on nan, inf) it is nan, at the
endpoints it is the matching infinity, at 0 it is 0; other finite
values are irrational and no claim reads them, so they are abstracted
to nan (an abstraction of the external array library only). -/
def farctanh : FloatVal → FloatVal
  | .nan => .nan
  | .inf => .nan
  | .ninf => .nan
  | .fin q =>
      if q = 0 then .fin 0
      else if q = 1 then .inf
      else if q = -1 then .ninf
      else .nan

/-- The engine's `log` operator node. -/
def Value.log (s : Nat) (net : Net) : Net × Nat :=
  net.push (.log s) ((dataOf net.data s).map1 flog)

/-- The engine's `arctanh` operator node. -/
def Value.arctanh (s : Nat) (net : Net) : Net × Nat :=
  net.push (.arctanh s) ((dataOf net.data s).map1 farctanh)

/-- The engine's `sum` method: normalize the axis argument against the
operand's rank and reduce; numpy raises `AxisError` at construction when
a normalized axis falls outside `[0, ndim)` (an axis below `-ndim` stays
negative after `de_neg`) and rejects repeated axes. -/
def Value.sum (s : Nat) (ax : AxisArg) (net : Net) : Except Err (Net × Nat) :=
  let n := (nodeOf net.nodes s).shape.length
  let l := normAxes n ax
  if l.Nodup ∧ ∀ d ∈ l, 0 ≤ d ∧ d < (n : Int) then
    .ok (net.push (.sum s ax) (sumT (dataOf net.data s) (axPos l)))
  else .error .broadcast

/-- The module-level `tensordot` builder with an int `axes`: asserts the
depth does not exceed either operand's rank, contracts the last `axes`
axes of the left operand with the first `axes` axes of the right. -/
def tensordot (l r : Nat) (axes : Nat) (net : Net) : Except Err (Net × Nat) := do
  if axes ≤ ndimOf net.nodes l ∧ axes ≤ ndimOf net.nodes r then
    let t ← liftO .broadcast
      (tdotFn (dataOf net.data l) (dataOf net.data r)
        ((List.range axes).map (fun j => (-1 : Int) - (j : Int)))
        ((List.range axes).map (fun j => (j : Int))))
    .ok (net.push (.tdot l r axes) t)
  else .error .shapeAssert

/-- One node's `_forward` closure: recompute its data from the parents'
current data, or re-bind a placeholder from the name-keyed bindings,
warning and writing the all-nan sentinel when the name is unbound.
Returns the updated data state and whether a warning was emitted. -/
def forwardStep (g : Graph) (bind : List (String × Tensor)) (v : Nat)
    (st : DataSt × Bool) : Except Err (DataSt × Bool) :=
  match (nodeOf g v).op with
  | .leaf => .ok st
  | .ph nm =>
      match bind.lookup nm with
      | some tv =>
          if tv.shape = (nodeOf g v).shape
          then .ok (st.1.set v tv, st.2)
          else .error .shapeAssert
      | none => .ok (st.1.set v (constT (nodeOf g v).shape .nan), true)
  | .add l r => do
      let t ← liftO .broadcast (ewB FloatVal.add (dataOf st.1 l) (dataOf st.1 r))
      .ok (st.1.set v t, st.2)
  | .mul l r => do
      let t ← liftO .broadcast (ewB FloatVal.mul (dataOf st.1 l) (dataOf st.1 r))
      .ok (st.1.set v t, st.2)
  | .log s => .ok (st.1.set v ((dataOf st.1 s).map1 flog), st.2)
  | .arctanh s => .ok (st.1.set v ((dataOf st.1 s).map1 farctanh), st.2)
  | .sum s ax =>
      let n := (nodeOf g s).shape.length
      let l := normAxes n ax
      if l.Nodup ∧ ∀ d ∈ l, 0 ≤ d ∧ d < (n : Int)
      then .ok (st.1.set v (sumT (dataOf st.1 s) (axPos l)), st.2)
      else .error .broadcast
  | .tdot l r k => do
      let t ← liftO .broadcast
        (tdotFn (dataOf st.1 l) (dataOf st.1 r)
          ((List.range k).map (fun j => (-1 : Int) - (j : Int)))
          ((List.range k).map (fun j => (j : Int))))
      .ok (st.1.set v t, st.2)

/-- The engine's `forward`: walk the topological order invoking each
node's forward closure against the bindings. -/
def Value.forward (g : Graph) (root : Nat) (bind : List (String × Tensor))
    (d : DataSt) : Except Err (DataSt × Bool) :=
  (topoList g root).foldlM (fun st v => forwardStep g bind v st) (d, false)

/-- Fresh gradient state for a graph: no node has an allocated gradient. -/
def noGrads (g : Graph) : GradSt := List.replicate g.length none

/-- Scalar (rank-0) tensor holding one finite value. -/
def scalarT (q : ℚ) : Tensor := ⟨[], [.fin q]⟩

/-- Decidable equality for engine results. -/
def exceptDecEq {e a : Type} [DecidableEq e] [DecidableEq a] :
    (x y : Except e a) → Decidable (x = y)
  | .ok u, .ok v =>
      if h : u = v then isTrue (by rw [h])
      else isFalse (by intro hc; cases hc; exact h rfl)
  | .error u, .error v =>
      if h : u = v then isTrue (by rw [h])
      else isFalse (by intro hc; cases hc; exact h rfl)
  | .ok _, .error _ => isFalse (by intro hc; cases hc)
  | .error _, .ok _ => isFalse (by intro hc; cases hc)

instance {e a : Type} [DecidableEq e] [DecidableEq a] : DecidableEq (Except e a) :=
  exceptDecEq

/-- The worked-example graph of the spec's scenario: leaves `a = 2.0`
(node 0), `b = -3.0` (node 1), `c = 10.0` (node 2), then `e = a * b`
(node 3), `d = e + c` (node 4), leaf `f = -2.0` (node 5) and
`L = d * f` (node 6). -/
def c1Net : Except Err Net := do
  let (m0, _) := Value.leaf (scalarT 2) Net.empty
  let (m1, _) := Value.leaf (scalarT (-3)) m0
  let (m2, _) := Value.leaf (scalarT 10) m1
  let (m3, _) ← Value.mul 0 1 m2
  let (m4, _) ← Value.add 3 2 m3
  let (m5, _) := Value.leaf (scalarT (-2)) m4
  let (m6, _) ← Value.mul 4 5 m5
  .ok m6

/-- Gradients after `L.backward()` on the worked-example graph. -/
def c1Res : Except Err GradSt := do
  let net ← c1Net
  Value.backward net.nodes 6 net.data (noGrads net.nodes)

/-- Two-node graph `y = x.log()` over a leaf holding `t`
(node 0 the leaf, node 1 the log output). -/
def logGraph (t : Tensor) : Net := (Value.log 0 (Value.leaf t Net.empty).1).1

/-- Gradient state after `y.backward()` on the log graph. -/
def logRes (t : Tensor) : Except Err GradSt :=
  Value.backward (logGraph t).nodes 1 (logGraph t).data (noGrads (logGraph t).nodes)

/-- Per-entry gradient the log backward rule produces under the all-ones
output gradient, written from the amended claim: not-a-number for a
negative entry, positive infinity at zero, and `1/x` for a positive
entry (`qdiv 1 q = 1/q` by the bridge lemma); IEEE propagation on the
non-finite entries. -/
def logGradExpected : FloatVal → FloatVal
  | .fin q => if q < 0 then .nan else if q = 0 then .inf else .fin (qdiv 1 q)
  | .nan => .nan
  | .inf => .fin 0
  | .ninf => .nan

/-- Two-node graph `y = x.arctanh()` over a leaf holding `t`. -/
def atanhGraph (t : Tensor) : Net := (Value.arctanh 0 (Value.leaf t Net.empty).1).1

/-- Gradient state after `y.backward()` on the arctanh graph. -/
def atanhRes (t : Tensor) : Except Err GradSt :=
  Value.backward (atanhGraph t).nodes 1 (atanhGraph t).data (noGrads (atanhGraph t).nodes)

/-- Per-entry gradient the arctanh backward rule produces under the
all-ones output gradient, written from the amended claim: not-a-number
strictly outside [-1, 1], positive infinity at the endpoints, and
`1/(1 - x^2)` strictly inside. -/
def atanhGradExpected : FloatVal → FloatVal
  | .fin q =>
      if q < -1 ∨ 1 < q then .nan
      else if q = 1 ∨ q = -1 then .inf
      else .fin (qdiv 1 (qadd 1 (qneg (qmul q q))))
  | .nan => .nan
  | .inf => .nan
  | .ninf => .nan

/-- Fan-out graph `y = x + x`: node 0 is the leaf `x`, used as both
operands of the add at node 1. -/
def fanoutNet (t : Tensor) : Except Err (Net × Nat) :=
  Value.add 0 0 (Value.leaf t Net.empty).1

/-- Two leaves of equal rank but different shapes: node 0 holds a
shape-`[1,4]` tensor and node 1 a shape-`[3,4]` tensor. -/
def bcastPairNet (da db : List FloatVal) : Net :=
  (Value.leaf ⟨[3, 4], db⟩ (Value.leaf ⟨[1, 4], da⟩ Net.empty).1).1

/-- Broadcasting pair: node 0 holds a shape-`[3,4]` tensor, node 1 a
shape-`[4]` tensor. -/
def c4Net (da db : List FloatVal) : Net :=
  (Value.leaf ⟨[4], db⟩ (Value.leaf ⟨[3, 4], da⟩ Net.empty).1).1

/-- The axis argument denotes the set of all axes of a rank-`n`
operand: its normalization is duplicate-free, in range, and covers
every axis (None normalizes to all axes; an int or tuple argument may
also cover all axes, e.g. a permutation with negative indices). -/
def CoversAll (n : Nat) (ax : AxisArg) : Prop :=
  (normAxes n ax).Nodup ∧ (∀ d ∈ normAxes n ax, 0 ≤ d ∧ d < (n : Int)) ∧
    ∀ d : Nat, d < n → (d : Int) ∈ normAxes n ax

instance (n : Nat) (ax : AxisArg) : Decidable (CoversAll n ax) :=
  inferInstanceAs (Decidable ((normAxes n ax).Nodup ∧
    (∀ d ∈ normAxes n ax, 0 ≤ d ∧ d < (n : Int)) ∧
    ∀ d : Nat, d < n → (d : Int) ∈ normAxes n ax))

/-- Reduction graph `y = x.sum(axis)`: node 0 the leaf, node 1 the sum. -/
def sumAllNet (t : Tensor) (ax : AxisArg) : Except Err (Net × Nat) :=
  Value.sum 0 ax (Value.leaf t Net.empty).1

/-- Placeholder graph `y = x + x` over a named placeholder `x` of a
declared shape (node 0 the placeholder, node 1 the add). -/
def phNet (nm : String) (s : List Nat) : Except Err (Net × Nat) :=
  Value.add 0 0 (Value.placeholder nm s Net.empty).1

/-- Standard matrix product of an `m × n` and an `n × p` tensor,
written from the spec's words (entry `(i,j)` is the sum over `k` of
`X[i,k] * Y[k,j]`), independent of the engine's `tensordot`. -/
def mmSpec (m n p : Nat) (X Y : Tensor) : Tensor :=
  ⟨[m, p], (allIdx [m, p]).map (fun ix =>
    (List.range n).foldl (fun acc k =>
      FloatVal.add acc (FloatVal.mul (X.el [ix.getD 0 0, k]) (Y.el [k, ix.getD 1 0])))
      (.fin 0))⟩

/-- Matrix-product graph `C = tensordot(A, B, 1)` over two leaves
(nodes 0, 1, 2). -/
def mmNet (A B : Tensor) : Except Err (Net × Nat) :=
  tensordot 0 1 1 (Value.leaf B (Value.leaf A Net.empty).1).1


/-- Well-formed graph: every node's parents have strictly smaller indices
(the arena is append-only, so every graph the builders produce satisfies
this). -/
def WFG (g : Graph) : Prop :=
  ∀ i, i < g.length → ∀ q ∈ (nodeOf g i).op.parents, q < i

instance (g : Graph) : Decidable (WFG g) :=
  inferInstanceAs (Decidable (∀ i, i < g.length → ∀ q ∈ (nodeOf g i).op.parents, q < i))

/-- A set of node indices closed under taking parents. -/
def ParentsClosed (g : Graph) (T : List Nat) : Prop :=
  ∀ v ∈ T, ∀ q ∈ (nodeOf g v).op.parents, q ∈ T

/-- Relation between two backward runs: both fail identically, or both
succeed with equal lengths and equal gradients on the node set T. -/
def BackRel (T : List Nat) : Except Err GradSt → Except Err GradSt → Prop
  | .ok a, .ok b => a.length = b.length ∧ ∀ i ∈ T, a.getD i none = b.getD i none
  | .error e1, .error e2 => e1 = e2
  | .ok _, .error _ => False
  | .error _, .ok _ => False

/-- Concrete three-node graph (two scalar leaves and their sum) for
exercising repeated backward calls. -/
def c9g : Graph := [⟨.leaf, []⟩, ⟨.leaf, []⟩, ⟨.add 0 1, []⟩]

def c9d : DataSt := [scalarT 2, scalarT 3, scalarT 5]

def c9st : GradSt := [some (scalarT 1), some (scalarT 1), some (scalarT 1)]

-- ===== theorems =====

theorem qadd_eq (a b : ℚ) : qadd a b = a + b := (Rat.add_def' a b).symm

theorem qmul_eq (a b : ℚ) : qmul a b = a * b := by
  rw [qmul, ← Rat.normalize_eq_mkRat (Nat.mul_ne_zero a.den_nz b.den_nz), ← Rat.mul_def]

theorem qneg_eq (a : ℚ) : qneg a = -a := by
  rw [qneg, ← Rat.neg_mkRat, Rat.mkRat_self]

theorem qdiv_eq (a b : ℚ) : qdiv a b = a / b := by
  rcases eq_or_ne b 0 with rfl | hb
  · simp [qdiv]
  · have hn : b.num ≠ 0 := Rat.num_ne_zero.mpr hb
    have hcast : ((a.den * b.num.natAbs : ℕ) : ℚ) ≠ 0 := by
      simp [a.den_nz, Int.natAbs_eq_zero, hn]
    have ha : (a : ℚ) * a.den = a.num := by
      nth_rewrite 1 [← Rat.num_div_den a]
      have had : ((a.den : ℚ)) ≠ 0 := by exact_mod_cast a.den_nz
      field_simp
    have hb2 : (b : ℚ) * b.den = b.num := by
      nth_rewrite 1 [← Rat.num_div_den b]
      have hbd : ((b.den : ℚ)) ≠ 0 := by exact_mod_cast b.den_nz
      field_simp
    have habs : ((b.num.natAbs : ℚ)) = |(b.num : ℚ)| := by
      rw [Nat.cast_natAbs]
      exact Int.cast_abs
    rw [qdiv, Rat.mkRat_eq_div, div_eq_div_iff hcast hb]
    rcases le_or_lt 0 b.num with h | h
    · rw [if_pos h]
      push_cast [habs, abs_of_nonneg (show (0:ℚ) ≤ (b.num : ℚ) by exact_mod_cast h)]
      linear_combination (a.num : ℚ) * hb2 - (b.num : ℚ) * ha
    · rw [if_neg (not_le.mpr h)]
      push_cast [habs, abs_of_neg (show ((b.num : ℚ)) < 0 by exact_mod_cast h)]
      linear_combination -(a.num : ℚ) * hb2 + (b.num : ℚ) * ha

theorem FloatVal.zero_add (x : FloatVal) : FloatVal.add (.fin 0) x = x := by
  cases x <;> simp [FloatVal.add, qadd_eq]

theorem FloatVal.mul_one_right (x : FloatVal) : FloatVal.mul x (.fin 1) = x := by
  cases x <;> norm_num [FloatVal.mul, qmul_eq]

theorem length_allIdx (s : List Nat) : (allIdx s).length = s.prod := by
  induction s with
  | nil => rfl
  | cons d ds ih =>
      have hf : (List.length ∘ fun i => List.map (fun is => i :: is) (allIdx ds)) =
          fun _ : Nat => ds.prod := funext fun i => by simp [ih]
      simp [allIdx, List.length_flatMap, hf, List.map_const', List.sum_replicate,
        Nat.mul_comm]

theorem mem_allIdx_cons {ix : List Nat} {d : Nat} {ds : List Nat} :
    ix ∈ allIdx (d :: ds) ↔ ∃ i is, ix = i :: is ∧ i < d ∧ is ∈ allIdx ds := by
  simp only [allIdx, List.mem_flatMap, List.mem_map, List.mem_range]
  tauto

theorem range_mul_flatMap (d P : Nat) :
    List.range (d * P) =
      (List.range d).flatMap (fun i => (List.range P).map (fun q => i * P + q)) := by
  induction d with
  | zero => simp
  | succ e ih =>
      rw [Nat.succ_mul, List.range_add, ih, List.range_succ, List.flatMap_append]
      simp

theorem allIdx_eq_map_unflatten (s : List Nat) :
    allIdx s = (List.range s.prod).map (unflatten s) := by
  induction s with
  | nil => rfl
  | cons d ds ih =>
      calc allIdx (d :: ds)
          = (List.range d).flatMap (fun i => (allIdx ds).map (fun is => i :: is)) := rfl
        _ = (List.range d).flatMap
              (fun i => (List.range ds.prod).map (fun q => i :: unflatten ds q)) := by
              rw [ih]
              simp [List.map_map, Function.comp_def]
        _ = (List.range d).flatMap
              (fun i => (List.range ds.prod).map
                (fun q => unflatten (d :: ds) (i * ds.prod + q))) := by
              refine List.flatMap_congr (fun i hi => List.map_congr_left (fun q hq => ?_))
              have hq' : q < ds.prod := List.mem_range.mp hq
              have hP : 0 < ds.prod := Nat.pos_of_ne_zero (by omega)
              show i :: unflatten ds q = (i * ds.prod + q) / ds.prod ::
                unflatten ds ((i * ds.prod + q) % ds.prod)
              have hmod : (i * ds.prod + q) % ds.prod = q := by
                rw [Nat.add_comm, Nat.add_mul_mod_self_right, Nat.mod_eq_of_lt hq']
              have hdiv : (i * ds.prod + q) / ds.prod = i := by
                rw [Nat.add_comm, Nat.add_mul_div_right _ _ hP, Nat.div_eq_of_lt hq',
                  Nat.zero_add]
              rw [hmod, hdiv]
        _ = ((List.range d).flatMap
              (fun i => (List.range ds.prod).map (fun q => i * ds.prod + q))).map
                (unflatten (d :: ds)) := by
              rw [List.map_flatMap]
              simp [List.map_map, Function.comp_def]
        _ = (List.range ((d :: ds).prod)).map (unflatten (d :: ds)) := by
              rw [← range_mul_flatMap]
              rfl

theorem flatPos_unflatten (s : List Nat) (p : Nat) (hp : p < s.prod) :
    flatPos s (unflatten s p) = p := by
  induction s generalizing p with
  | nil =>
      have : p = 0 := by simpa using hp
      subst this
      rfl
  | cons d ds ih =>
      have hP : 0 < ds.prod := by
        rcases Nat.eq_zero_or_pos ds.prod with h | h
        · rw [List.prod_cons, h, Nat.mul_zero] at hp
          omega
        · exact h
      show (p / ds.prod) * ds.prod + flatPos ds (unflatten ds (p % ds.prod)) = p
      rw [ih _ (Nat.mod_lt _ hP), Nat.mul_comm, Nat.div_add_mod]

theorem flatPos_lt (s : List Nat) (ix : List Nat) (h : ix ∈ allIdx s) :
    flatPos s ix < s.prod := by
  rw [allIdx_eq_map_unflatten] at h
  rcases List.mem_map.mp h with ⟨p, hp, rfl⟩
  rw [flatPos_unflatten _ _ (List.mem_range.mp hp)]
  exact List.mem_range.mp hp

theorem length_mem_allIdx {s ix : List Nat} (h : ix ∈ allIdx s) : ix.length = s.length := by
  induction s generalizing ix with
  | nil => simp [allIdx] at h; simp [h]
  | cons d ds ih =>
      rcases mem_allIdx_cons.mp h with ⟨i, is, rfl, hi, his⟩
      simp [ih his]

theorem clampIx_self {s ix : List Nat} (h : ix ∈ allIdx s) : clampIx s ix = ix := by
  rw [clampIx, length_mem_allIdx h, Nat.sub_self, List.drop_zero]
  induction s generalizing ix with
  | nil => simp [allIdx] at h; simp [h]
  | cons d ds ih =>
      rcases mem_allIdx_cons.mp h with ⟨i, is, rfl, hi, his⟩
      simp only [List.zipWith_cons_cons, ih his]
      congr 1
      by_cases hd : d = 1
      · subst hd
        simp
        omega
      · simp [hd]

theorem el_const {s ix : List Nat} (c : FloatVal) (h : ix ∈ allIdx s) :
    (constT s c).el ix = c := by
  rw [Tensor.el, constT, List.getD_eq_getElem?_getD,
    List.getElem?_eq_getElem (by simpa using flatPos_lt s ix h)]
  simp

theorem bEl_self {a : Tensor} {ix : List Nat} (h : ix ∈ allIdx a.shape) :
    a.bEl ix = a.el ix := by
  rw [Tensor.bEl, clampIx_self h]

theorem bEl_const {s ix : List Nat} (c : FloatVal) (h : ix ∈ allIdx s) :
    (constT s c).bEl ix = c := by
  rw [show (constT s c).bEl ix = (constT s c).el (clampIx s ix) from rfl,
    clampIx_self h]
  exact el_const c h

theorem map_el_eq_data (t : Tensor) (h : t.wf) : (allIdx t.shape).map t.el = t.data := by
  rw [allIdx_eq_map_unflatten, List.map_map]
  refine List.ext_getElem (by simpa using h.symm) ?_
  intro n h1 h2
  simp only [List.getElem_map, List.getElem_range, Function.comp]
  have hn : n < t.shape.prod := by simpa using h1
  rw [Tensor.el, flatPos_unflatten _ _ hn, List.getD_eq_getElem?_getD,
    List.getElem?_eq_getElem h2]
  rfl

theorem bdim_self (d : Nat) : bdim d d = some d := by
  rcases d with _ | _ | n <;> simp [bdim]

theorem bcastRev_self (l : List Nat) : bcastRev l l = some l := by
  induction l with
  | nil => rfl
  | cons d ds ih => simp [bcastRev, bdim_self, ih]

theorem bcast_self (s : List Nat) : bcast s s = some s := by
  simp [bcast, bcastRev_self]

theorem bcastRev_ones (l : List Nat) :
    bcastRev (List.replicate l.length 1) l = some l := by
  induction l with
  | nil => rfl
  | cons d ds ih => simp [bcastRev, bdim, ih]

theorem bcast_ones (s : List Nat) : bcast (List.replicate s.length 1) s = some s := by
  have h := bcastRev_ones s.reverse
  simp only [List.length_reverse] at h
  rw [bcast, List.reverse_replicate, h]
  simp

theorem ewB_same_shape (f : FloatVal → FloatVal → FloatVal) (a b : Tensor)
    (h : b.shape = a.shape) :
    ewB f a b = some ⟨a.shape, (allIdx a.shape).map (fun ix => f (a.el ix) (b.el ix))⟩ := by
  rw [ewB, h, bcast_self]
  refine congrArg some ?_
  refine congrArg (fun dl => (⟨a.shape, dl⟩ : Tensor)) ?_
  refine List.map_congr_left (fun ix hix => ?_)
  rw [bEl_self hix, Tensor.bEl, h, clampIx_self hix]

theorem ewB_const_right (f : FloatVal → FloatVal → FloatVal) (t : Tensor) (c : FloatVal)
    (h : t.wf) :
    ewB f t (constT t.shape c) = some ⟨t.shape, t.data.map (fun x => f x c)⟩ := by
  rw [ewB_same_shape f t (constT t.shape c) rfl]
  congr 1
  refine congrArg _ ?_
  calc (allIdx t.shape).map (fun ix => f (t.el ix) ((constT t.shape c).el ix))
      = (allIdx t.shape).map (fun ix => (fun x => f x c) (t.el ix)) :=
        List.map_congr_left (fun ix hix => by rw [el_const c hix])
    _ = ((allIdx t.shape).map t.el).map (fun x => f x c) := by
        rw [List.map_map]
        rfl
    _ = t.data.map (fun x => f x c) := by rw [map_el_eq_data t h]

theorem ewB_const_left (f : FloatVal → FloatVal → FloatVal) (t : Tensor) (c : FloatVal)
    (h : t.wf) :
    ewB f (constT t.shape c) t = some ⟨t.shape, t.data.map (fun x => f c x)⟩ := by
  have h1 : t.shape = (constT t.shape c).shape := rfl
  rw [ewB_same_shape f (constT t.shape c) t h1.symm]
  congr 1
  refine congrArg _ ?_
  calc (allIdx t.shape).map (fun ix => f ((constT t.shape c).el ix) (t.el ix))
      = (allIdx t.shape).map (fun ix => (fun x => f c x) (t.el ix)) :=
        List.map_congr_left (fun ix hix => by rw [el_const c hix])
    _ = ((allIdx t.shape).map t.el).map (fun x => f c x) := by
        rw [List.map_map]
        rfl
    _ = t.data.map (fun x => f c x) := by rw [map_el_eq_data t h]

theorem ewB_const_const (f : FloatVal → FloatVal → FloatVal) (s : List Nat)
    (c1 c2 : FloatVal) :
    ewB f (constT s c1) (constT s c2) = some (constT s (f c1 c2)) := by
  rw [show constT s c2 = constT (constT s c1).shape c2 from rfl,
    ewB_const_right f (constT s c1) c2 (by simp [Tensor.wf, constT])]
  simp [constT, List.map_replicate]

theorem iadd_of_some (a b t : Tensor) (h : ewB FloatVal.add a b = some t)
    (hs : t.shape = a.shape) : iadd a b = .ok t := by
  rw [iadd, h]
  simp [hs]

theorem iadd_const_const (s : List Nat) (a b : FloatVal) :
    iadd (constT s a) (constT s b) = .ok (constT s (FloatVal.add a b)) :=
  iadd_of_some _ _ _ (ewB_const_const _ s a b) rfl

theorem iadd_zeros (t : Tensor) (s : List Nat) (hw : t.wf) (hs : t.shape = s) :
    iadd (zerosT s) t = .ok t := by
  subst hs
  refine iadd_of_some _ _ _ ?_ rfl
  rw [zerosT, ewB_const_left FloatVal.add t (.fin 0) hw]
  have hdata : t.data.map (fun x => FloatVal.add (.fin 0) x) = t.data := by
    rw [List.map_congr_left (fun x _ => FloatVal.zero_add x)]
    exact List.map_id t.data
  rw [hdata]


/-- C1, counterexample: the claim's stated gradient values are wrong on
the worked example.  After `L.backward()` the engine yields
`a.gradient = 6.0` and `b.gradient = -4.0` (with `c = -2`, `d = -2`,
`f = 4`), so the claimed combination `a.gradient = -6.0`,
`b.gradient = 4.0`, `c.gradient = -2.0`, `d.gradient = -2.0`,
`f.gradient = 4.0` is false. -/
theorem backward_worked_example_spec_values_false :
    ¬ (c1Res.map (fun gs => (gs.getD 0 none, gs.getD 1 none, gs.getD 2 none,
        gs.getD 4 none, gs.getD 5 none)) =
      .ok (some (scalarT (-6)), some (scalarT 4), some (scalarT (-2)),
        some (scalarT (-2)), some (scalarT 4))) := by decide

/-- C1, amended: on the graph `a = leaf(2.0)`, `b = leaf(-3.0)`,
`c = leaf(10.0)`, `e = a*b`, `d = e+c`, `f = leaf(-2.0)`, `L = d*f`,
calling `L.backward()` yields `a.gradient = 6.0`, `b.gradient = -4.0`,
`c.gradient = -2.0`, `d.gradient = -2.0` and `f.gradient = 4.0`
(nodes 0, 1, 2, 4 and 5; the signs of the claim's `a` and `b` values
are corrected, matching the canonical worked example). -/
theorem backward_worked_example_grads :
    c1Res.map (fun gs => (gs.getD 0 none, gs.getD 1 none, gs.getD 2 none,
        gs.getD 4 none, gs.getD 5 none)) =
      .ok (some (scalarT 6), some (scalarT (-4)), some (scalarT (-2)),
        some (scalarT (-2)), some (scalarT 4)) := by decide

/-- Shapes are preserved by elementwise maps, and so is flat length. -/
theorem map1_wf (f : FloatVal → FloatVal) (t : Tensor) (h : t.wf) : (t.map1 f).wf := by
  simp [Tensor.map1, Tensor.wf] at *
  exact h

/-- Pointwise form of the log backward rule applied to a unit output
gradient entry. -/
theorem logGrad_pointwise (x : FloatVal) :
    FloatVal.mul (FloatVal.div (.fin 1) (if x.ge (.fin 0) then x else .nan)) (.fin 1) =
      logGradExpected x := by
  cases x with
  | fin q =>
      rcases lt_trichotomy q 0 with h | h | h
      · rw [show (FloatVal.fin q).ge (.fin 0) = false by
          simp [FloatVal.ge, FloatVal.le]; linarith]
        simp [FloatVal.div, FloatVal.mul, logGradExpected, h]
      · subst h
        simp [FloatVal.ge, FloatVal.le, FloatVal.div, FloatVal.mul, logGradExpected]
      · rw [show (FloatVal.fin q).ge (.fin 0) = true by
          simp [FloatVal.ge, FloatVal.le]; linarith]
        simp only [if_true]
        rw [FloatVal.div, if_neg (by linarith), FloatVal.mul]
        rw [logGradExpected.eq_def]
        simp [not_lt.mpr (le_of_lt h), ne_of_gt h, qmul_eq]
  | nan => simp [FloatVal.ge, FloatVal.le, FloatVal.div, FloatVal.mul, logGradExpected]
  | inf =>
      simp [FloatVal.ge, FloatVal.le, FloatVal.div, FloatVal.mul, logGradExpected, qmul_eq]
  | ninf => simp [FloatVal.ge, FloatVal.le, FloatVal.div, FloatVal.mul, logGradExpected]

/-- C6, amended: for `y = x.log()`, `y.backward()` never raises, and the
gradient added into `x` is `1/x` times the (all-ones) output gradient
entrywise: not-a-number for entries `x < 0`, but positive infinity (not
not-a-number, as the claim stated) at `x = 0`. -/
theorem log_backward_grad_entries (t : Tensor) (hw : t.wf) :
    logRes t = .ok [some ⟨t.shape, t.data.map logGradExpected⟩, some (onesT t.shape)] := by
  have h3 : topoList (logGraph t).nodes 1 = [0, 1] := rfl
  have hxwf : ((t.map1 (fun x => if x.ge (.fin 0) then x else .nan)).map1
      (FloatVal.div (.fin 1))).wf := map1_wf _ _ (map1_wf _ _ hw)
  have h5 : ewB FloatVal.mul
      ((t.map1 (fun x => if x.ge (.fin 0) then x else .nan)).map1 (FloatVal.div (.fin 1)))
      (onesT t.shape) = some ⟨t.shape, t.data.map logGradExpected⟩ := by
    rw [show onesT t.shape = constT ((t.map1 (fun x => if x.ge (.fin 0) then x else .nan)).map1
        (FloatVal.div (.fin 1))).shape (.fin 1) from rfl,
      ewB_const_right _ _ _ hxwf]
    refine congrArg some ?_
    refine congrArg (fun dl => (⟨t.shape, dl⟩ : Tensor)) ?_
    show ((t.data.map (fun x => if x.ge (.fin 0) then x else .nan)).map
      (FloatVal.div (.fin 1))).map (fun x => FloatVal.mul x (.fin 1)) = _
    rw [List.map_map, List.map_map]
    refine List.map_congr_left (fun x _ => ?_)
    exact logGrad_pointwise x
  have hcwf : (⟨t.shape, t.data.map logGradExpected⟩ : Tensor).wf := by
    simpa [Tensor.wf] using hw
  rw [logRes, Value.backward, h3]
  show (do
    let gs1 ← backstep (logGraph t).nodes (logGraph t).data 1
      (seedGrads (logGraph t).nodes 1 [0, 1] (noGrads (logGraph t).nodes))
    backstep (logGraph t).nodes (logGraph t).data 0 gs1) = _
  have hseed : seedGrads (logGraph t).nodes 1 [0, 1] (noGrads (logGraph t).nodes) =
      [some (zerosT t.shape), some (onesT t.shape)] := rfl
  rw [hseed]
  have hstep1 : backstep (logGraph t).nodes (logGraph t).data 1
      [some (zerosT t.shape), some (onesT t.shape)] =
      .ok [some ⟨t.shape, t.data.map logGradExpected⟩, some (onesT t.shape)] := by
    show (liftO Err.broadcast (ewB FloatVal.mul
        ((t.map1 (fun x => if x.ge (.fin 0) then x else .nan)).map1 (FloatVal.div (.fin 1)))
        (onesT t.shape))).bind
      (fun c => accumAt 0 c [some (zerosT t.shape), some (onesT t.shape)]) = _
    rw [h5]
    show accumAt 0 ⟨t.shape, t.data.map logGradExpected⟩
      [some (zerosT t.shape), some (onesT t.shape)] = _
    show (iadd (zerosT t.shape) ⟨t.shape, t.data.map logGradExpected⟩).bind
      (fun g0 => .ok ([some (zerosT t.shape), some (onesT t.shape)].set 0 (some g0))) = _
    rw [iadd_zeros _ _ hcwf rfl]
    rfl
  rw [hstep1]
  rfl

/-- C6, witness: the amended theorem applied to the concrete leaf
`[-2, 4]`, whose gradient evaluates to `[nan, 1/4]`. -/
theorem log_backward_grad_entries_witness :
    (⟨[2], [.fin (-2), .fin 4]⟩ : Tensor).wf ∧
    logRes ⟨[2], [.fin (-2), .fin 4]⟩ =
      .ok [some ⟨[2], [FloatVal.nan, .fin (mkRat 1 4)]⟩, some (onesT [2])] :=
  ⟨by decide, by
    rw [log_backward_grad_entries _ (by decide)]
    decide⟩

/-- C6, counterexample: at the operand entry `x = 0` (which satisfies
`x ≤ 0`), the log backward rule yields a positive-infinity gradient
contribution, not a not-a-number one, refuting the claim's "every
operand entry x with x ≤ 0 yields a not-a-number gradient
contribution" (no exception is raised, as the `ok` result shows). -/
theorem log_backward_zero_not_nan :
    logRes (scalarT 0) = .ok [some ⟨[], [.inf]⟩, some (onesT [])] ∧
    FloatVal.inf ≠ FloatVal.nan := ⟨by decide, by decide⟩

/-- Pointwise form of the arctanh backward rule applied to a unit output
gradient entry. -/
theorem atanhGrad_pointwise (x : FloatVal) :
    FloatVal.mul (FloatVal.div (.fin 1)
      (FloatVal.sub (.fin 1)
        (FloatVal.mul (if (FloatVal.le (.fin (-1)) x && FloatVal.le x (.fin 1)) then x else .nan)
          (if (FloatVal.le (.fin (-1)) x && FloatVal.le x (.fin 1)) then x else .nan))))
      (.fin 1) = atanhGradExpected x := by
  cases x with
  | fin q =>
      by_cases hin : (-1 : ℚ) ≤ q ∧ q ≤ 1
      · rw [show (FloatVal.le (.fin (-1)) (.fin q) && FloatVal.le (.fin q) (.fin 1)) = true by
          simp [FloatVal.le, hin.1, hin.2]]
        simp only [if_true]
        have hr : qadd 1 (qneg (qmul q q)) = 1 - q * q := by
          rw [qmul_eq, qneg_eq, qadd_eq]
          ring
        show FloatVal.mul (FloatVal.div (.fin 1) (.fin (qadd 1 (qneg (qmul q q))))) (.fin 1) = _
        by_cases h0 : (1 : ℚ) - q * q = 0
        · have hq1 : q = 1 ∨ q = -1 := by
            have hz : (1 - q) * (1 + q) = 0 := by linear_combination h0
            rcases mul_eq_zero.mp hz with h | h
            · left; linarith
            · right; linarith
          rw [FloatVal.div, if_pos (by rw [hr]; exact h0)]
          rw [if_pos (by norm_num)]
          rw [atanhGradExpected.eq_def]
          simp only
          rw [if_neg (by rcases hq1 with rfl | rfl <;> norm_num), if_pos hq1]
          rfl
        · rw [FloatVal.div, if_neg (by rw [hr]; exact h0)]
          rw [FloatVal.mul]
          rw [atanhGradExpected.eq_def]
          simp only
          rw [if_neg (by push_neg; exact ⟨by linarith [hin.1], by linarith [hin.2]⟩)]
          rw [if_neg (by rintro (rfl | rfl) <;> simp at h0)]
          rw [qmul_eq, mul_one]
      · rw [show (FloatVal.le (.fin (-1)) (.fin q) && FloatVal.le (.fin q) (.fin 1)) = false by
          simp [FloatVal.le]
          intro h
          rcases not_and_or.mp hin with h1 | h2
          · exact absurd h (by simp at h1; intro hc; linarith)
          · simp at h2; linarith]
        simp only [Bool.false_eq_true, if_false]
        rw [atanhGradExpected.eq_def]
        simp only
        rw [if_pos (by rcases not_and_or.mp hin with h1 | h2
                       · left; exact lt_of_not_le h1
                       · right; exact lt_of_not_le h2)]
        rfl
  | nan => rfl
  | inf => rfl
  | ninf => rfl

/-- C7, amended: for `y = x.arctanh()`, `y.backward()` never raises, and
the gradient added into `x` is `1/(1 - x^2)` times the (all-ones) output
gradient entrywise: not-a-number for entries with `|x| > 1`, but
positive infinity (not not-a-number, as the claim stated) at `x = 1`
and `x = -1`. -/
theorem arctanh_backward_grad_entries (t : Tensor) (hw : t.wf) :
    atanhRes t = .ok [some ⟨t.shape, t.data.map atanhGradExpected⟩, some (onesT t.shape)] := by
  have h3 : topoList (atanhGraph t).nodes 1 = [0, 1] := rfl
  have hxwf : ((t.map1 (fun x => if (FloatVal.le (.fin (-1)) x && FloatVal.le x (.fin 1))
        then x else .nan)).map1
      (fun x => FloatVal.div (.fin 1) (FloatVal.sub (.fin 1) (x.mul x)))).wf :=
    map1_wf _ _ (map1_wf _ _ hw)
  have h5 : ewB FloatVal.mul
      ((t.map1 (fun x => if (FloatVal.le (.fin (-1)) x && FloatVal.le x (.fin 1))
          then x else .nan)).map1
        (fun x => FloatVal.div (.fin 1) (FloatVal.sub (.fin 1) (x.mul x))))
      (onesT t.shape) = some ⟨t.shape, t.data.map atanhGradExpected⟩ := by
    rw [show onesT t.shape = constT ((t.map1 (fun x => if (FloatVal.le (.fin (-1)) x &&
          FloatVal.le x (.fin 1)) then x else .nan)).map1
        (fun x => FloatVal.div (.fin 1) (FloatVal.sub (.fin 1) (x.mul x)))).shape (.fin 1)
        from rfl,
      ewB_const_right _ _ _ hxwf]
    refine congrArg some ?_
    refine congrArg (fun dl => (⟨t.shape, dl⟩ : Tensor)) ?_
    show ((t.data.map (fun x => if (FloatVal.le (.fin (-1)) x && FloatVal.le x (.fin 1))
        then x else .nan)).map
      (fun x => FloatVal.div (.fin 1) (FloatVal.sub (.fin 1) (x.mul x)))).map
        (fun x => FloatVal.mul x (.fin 1)) = _
    rw [List.map_map, List.map_map]
    refine List.map_congr_left (fun x _ => ?_)
    exact atanhGrad_pointwise x
  have hcwf : (⟨t.shape, t.data.map atanhGradExpected⟩ : Tensor).wf := by
    simpa [Tensor.wf] using hw
  rw [atanhRes, Value.backward, h3]
  show (do
    let gs1 ← backstep (atanhGraph t).nodes (atanhGraph t).data 1
      (seedGrads (atanhGraph t).nodes 1 [0, 1] (noGrads (atanhGraph t).nodes))
    backstep (atanhGraph t).nodes (atanhGraph t).data 0 gs1) = _
  have hseed : seedGrads (atanhGraph t).nodes 1 [0, 1] (noGrads (atanhGraph t).nodes) =
      [some (zerosT t.shape), some (onesT t.shape)] := rfl
  rw [hseed]
  have hstep1 : backstep (atanhGraph t).nodes (atanhGraph t).data 1
      [some (zerosT t.shape), some (onesT t.shape)] =
      .ok [some ⟨t.shape, t.data.map atanhGradExpected⟩, some (onesT t.shape)] := by
    show (liftO Err.broadcast (ewB FloatVal.mul
        ((t.map1 (fun x => if (FloatVal.le (.fin (-1)) x && FloatVal.le x (.fin 1))
            then x else .nan)).map1
          (fun x => FloatVal.div (.fin 1) (FloatVal.sub (.fin 1) (x.mul x))))
        (onesT t.shape))).bind
      (fun c => accumAt 0 c [some (zerosT t.shape), some (onesT t.shape)]) = _
    rw [h5]
    show (iadd (zerosT t.shape) ⟨t.shape, t.data.map atanhGradExpected⟩).bind
      (fun g0 => .ok ([some (zerosT t.shape), some (onesT t.shape)].set 0 (some g0))) = _
    rw [iadd_zeros _ _ hcwf rfl]
    rfl
  rw [hstep1]
  rfl

/-- C7, witness: the amended theorem applied to the concrete leaf
`[0, 2]`, whose gradient evaluates to `[1, nan]`. -/
theorem arctanh_backward_grad_entries_witness :
    (⟨[2], [.fin 0, .fin 2]⟩ : Tensor).wf ∧
    atanhRes ⟨[2], [.fin 0, .fin 2]⟩ =
      .ok [some ⟨[2], [FloatVal.fin 1, FloatVal.nan]⟩, some (onesT [2])] :=
  ⟨by decide, by
    rw [arctanh_backward_grad_entries _ (by decide)]
    decide⟩

/-- C7, counterexample: at the operand entry `x = 1` (which satisfies
`|x| ≥ 1`), the arctanh backward rule yields a positive-infinity
gradient contribution, not a not-a-number one, refuting the claim's
"every operand entry x with |x| ≥ 1 yields a not-a-number gradient
contribution" (no exception is raised). -/
theorem arctanh_backward_one_not_nan :
    atanhRes (scalarT 1) = .ok [some ⟨[], [.inf]⟩, some (onesT [])] ∧
    FloatVal.inf ≠ FloatVal.nan := ⟨by decide, by decide⟩


/-- C2: for every node `x`, building `y = x + x` (the same node as both
operands) and calling `y.backward()` yields `x.gradient` equal to the
constant-2 tensor of `x`'s shape: both consumers' contributions (each
the all-ones output gradient) sum into the same gradient buffer rather
than overwrite it. -/
theorem fanout_add_grad_two (t : Tensor) :
    (fanoutNet t).bind
      (fun p => Value.backward p.1.nodes p.2 p.1.data (noGrads p.1.nodes)) =
      .ok [some (constT t.shape (.fin 2)), some (onesT t.shape)] := by
  have h01 : FloatVal.add (.fin 0) (.fin 1) = .fin 1 := FloatVal.zero_add _
  have h11 : FloatVal.add (.fin 1) (.fin 1) = .fin 2 := by
    show FloatVal.fin (qadd 1 1) = .fin 2
    rw [qadd_eq]
    norm_num
  have hbuild : fanoutNet t = .ok
      (⟨[⟨.leaf, t.shape⟩, ⟨.add 0 0, t.shape⟩],
        [t, ⟨t.shape, (allIdx t.shape).map (fun ix => FloatVal.add (t.el ix) (t.el ix))⟩]⟩, 1) := by
    rw [fanoutNet, Value.add]
    rw [show dataOf (Value.leaf t Net.empty).1.data 0 = t from rfl]
    rw [ewB_same_shape FloatVal.add t t rfl]
    rfl
  have haddc : addContrib [(⟨.leaf, t.shape⟩ : Value), ⟨.add 0 0, t.shape⟩] 1 0
      (onesT t.shape) = onesT t.shape := by
    rw [addContrib,
      show ndimOf [(⟨.leaf, t.shape⟩ : Value), ⟨.add 0 0, t.shape⟩] 0 = t.shape.length from rfl,
      show ndimOf [(⟨.leaf, t.shape⟩ : Value), ⟨.add 0 0, t.shape⟩] 1 = t.shape.length from rfl,
      if_neg (lt_irrefl _)]
  have hstep1 : backstep [⟨.leaf, t.shape⟩, ⟨.add 0 0, t.shape⟩]
      [t, ⟨t.shape, (allIdx t.shape).map (fun ix => FloatVal.add (t.el ix) (t.el ix))⟩] 1
      [some (zerosT t.shape), some (onesT t.shape)] =
      .ok [some (constT t.shape (.fin 2)), some (onesT t.shape)] := by
    show (do
      let gs ← accumAt 0 (addContrib [(⟨.leaf, t.shape⟩ : Value), ⟨.add 0 0, t.shape⟩] 1 0
        (onesT t.shape)) [some (zerosT t.shape), some (onesT t.shape)]
      accumAt 0 (addContrib [(⟨.leaf, t.shape⟩ : Value), ⟨.add 0 0, t.shape⟩] 1 0
        (onesT t.shape)) gs) = _
    rw [haddc]
    show Except.bind (Except.bind (iadd (zerosT t.shape) (onesT t.shape))
      (fun g0 => Except.ok ([some (zerosT t.shape), some (onesT t.shape)].set 0 (some g0))))
      (fun gs => accumAt 0 (onesT t.shape) gs) = _
    rw [show iadd (zerosT t.shape) (onesT t.shape) = .ok (onesT t.shape) by
      rw [zerosT, onesT, iadd_const_const, h01]]
    show (iadd (onesT t.shape) (onesT t.shape)).bind
      (fun g0 => Except.ok ([some (onesT t.shape), some (onesT t.shape)].set 0 (some g0))) = _
    rw [show iadd (onesT t.shape) (onesT t.shape) = .ok (constT t.shape (.fin 2)) by
      rw [onesT, iadd_const_const, h11]]
    rfl
  rw [hbuild]
  show Value.backward [⟨.leaf, t.shape⟩, ⟨.add 0 0, t.shape⟩]
    1 [t, ⟨t.shape, (allIdx t.shape).map (fun ix => FloatVal.add (t.el ix) (t.el ix))⟩]
    (noGrads [⟨.leaf, t.shape⟩, ⟨.add 0 0, t.shape⟩]) = _
  have h3 : topoList [(⟨.leaf, t.shape⟩ : Value), ⟨.add 0 0, t.shape⟩] 1 = [0, 1] := rfl
  rw [Value.backward, h3]
  show (backstep [⟨.leaf, t.shape⟩, ⟨.add 0 0, t.shape⟩]
      [t, ⟨t.shape, (allIdx t.shape).map (fun ix => FloatVal.add (t.el ix) (t.el ix))⟩] 1
      [some (zerosT t.shape), some (onesT t.shape)]).bind
    (fun gs1 => backstep [⟨.leaf, t.shape⟩, ⟨.add 0 0, t.shape⟩]
      [t, ⟨t.shape, (allIdx t.shape).map (fun ix => FloatVal.add (t.el ix) (t.el ix))⟩] 0 gs1) = _
  rw [hstep1]
  rfl

/-- C2, witness: the fan-out theorem applied at the concrete leaf
`[5, 7]`, whose gradient is `[2, 2]` and in particular not the all-ones
tensor. -/
theorem fanout_add_grad_two_witness :
    ((fanoutNet ⟨[2], [.fin 5, .fin 7]⟩).bind
      (fun p => Value.backward p.1.nodes p.2 p.1.data (noGrads p.1.nodes)) =
      .ok [some (constT [2] (.fin 2)), some (onesT [2])]) ∧
    constT [2] (FloatVal.fin 2) ≠ onesT [2] :=
  ⟨fanout_add_grad_two _, by decide⟩


/-- C10: for add and multiply between operands of equal rank but
different shapes `(1,4)` and `(3,4)` (a size-1 axis broadcast in the
forward pass), the forward computation succeeds with output shape
`(3,4)`, but `backward()` fails: the full-output-shape gradient is
added in place into the `(1,4)` gradient buffer without reduction over
the broadcast axis, a non-broadcastable in-place accumulation. -/
theorem broadcast_same_rank_backward_fails (da db : List FloatVal) :
    ((Value.add 0 1 (bcastPairNet da db)).map
        (fun p => (nodeOf p.1.nodes p.2).shape) = .ok [3, 4] ∧
      (Value.add 0 1 (bcastPairNet da db)).bind
        (fun p => Value.backward p.1.nodes p.2 p.1.data (noGrads p.1.nodes)) =
        .error .accum) ∧
    ((Value.mul 0 1 (bcastPairNet da db)).map
        (fun p => (nodeOf p.1.nodes p.2).shape) = .ok [3, 4] ∧
      (Value.mul 0 1 (bcastPairNet da db)).bind
        (fun p => Value.backward p.1.nodes p.2 p.1.data (noGrads p.1.nodes)) =
        .error .accum) := by
  refine ⟨⟨rfl, ?_⟩, ⟨rfl, ?_⟩⟩ <;> rfl


/-- Accumulating a contribution into a zero-seeded gradient buffer of
the matching shape just stores the contribution. -/
theorem accumAt_zeros (i : Nat) (c : Tensor) (gs : GradSt)
    (h : gs.getD i none = some (zerosT c.shape)) (hw : c.wf) :
    accumAt i c gs = .ok (gs.set i (some c)) := by
  have hng : needGrad gs i = .ok (zerosT c.shape) := by
    rw [needGrad, h]
  show Except.bind (needGrad gs i)
    (fun gi => Except.bind (iadd gi c) (fun gi' => Except.ok (gs.set i (some gi')))) = _
  rw [hng]
  show Except.bind (iadd (zerosT c.shape) c)
    (fun gi' => Except.ok (gs.set i (some gi'))) = _
  rw [iadd_zeros c c.shape hw rfl]
  rfl

/-- C4: add and multiply between a shape-`(3,4)` node and a shape-`(4,)`
node produce a shape-`(3,4)` output, and after calling `backward()` on
that output the gradient of the shape-`(4,)` operand is the sum over
axis 0 of the product of the output gradient (the all-ones seed, as the
second projection shows) with the local derivative: the output gradient
itself for add, and the `(3,4)` operand's value times the output
gradient for multiply. -/
theorem broadcast_add_mul_grad_sum_axis0 (da db : List FloatVal) :
    ((Value.add 0 1 (c4Net da db)).map
        (fun p => (nodeOf p.1.nodes p.2).shape) = .ok [3, 4] ∧
      ((Value.add 0 1 (c4Net da db)).bind
        (fun p => Value.backward p.1.nodes p.2 p.1.data (noGrads p.1.nodes))).map
        (fun gs => (gs.getD 1 none, gs.getD 2 none)) =
      .ok (some (sumT (onesT [3, 4]) [0]), some (onesT [3, 4]))) ∧
    ((Value.mul 0 1 (c4Net da db)).map
        (fun p => (nodeOf p.1.nodes p.2).shape) = .ok [3, 4] ∧
      ((Value.mul 0 1 (c4Net da db)).bind
        (fun p => Value.backward p.1.nodes p.2 p.1.data (noGrads p.1.nodes))).map
        (fun gs => (gs.getD 1 none, gs.getD 2 none)) =
      .ok ((ewB FloatVal.mul ⟨[3, 4], da⟩ (onesT [3, 4])).map (fun pt => sumT pt [0]),
        some (onesT [3, 4]))) := by
  constructor
  · refine ⟨rfl, ?_⟩
    have hstep2 : backstep [⟨.leaf, [3, 4]⟩, ⟨.leaf, [4]⟩, ⟨.add 0 1, [3, 4]⟩]
        [(⟨[3, 4], da⟩ : Tensor), (⟨[4], db⟩ : Tensor),
          ⟨[3, 4], (allIdx [3, 4]).map (fun ix =>
            FloatVal.add ((⟨[3, 4], da⟩ : Tensor).bEl ix) ((⟨[4], db⟩ : Tensor).bEl ix))⟩] 2
        [some (zerosT [3, 4]), some (zerosT [4]), some (onesT [3, 4])] = .ok
        [some (onesT [3, 4]), some (sumT (onesT [3, 4]) [0]), some (onesT [3, 4])] := by
      show Except.bind (accumAt 0 (onesT [3, 4]) [some (zerosT [3, 4]), some (zerosT [4]), some (onesT [3, 4])])
        (fun gs2 => accumAt 1 (sumT (onesT [3, 4]) [0]) gs2) = _
      rw [accumAt_zeros 0 (onesT [3, 4]) [some (zerosT [3, 4]), some (zerosT [4]), some (onesT [3, 4])] rfl rfl]
      show accumAt 1 (sumT (onesT [3, 4]) [0])
        [some (onesT [3, 4]), some (zerosT [4]), some (onesT [3, 4])] = _
      rw [accumAt_zeros 1 (sumT (onesT [3, 4]) [0])
        [some (onesT [3, 4]), some (zerosT [4]), some (onesT [3, 4])] rfl rfl]
      rfl
    rw [show Value.add 0 1 (c4Net da db) = .ok
        (⟨[⟨.leaf, [3, 4]⟩, ⟨.leaf, [4]⟩, ⟨.add 0 1, [3, 4]⟩],
          [(⟨[3, 4], da⟩ : Tensor), (⟨[4], db⟩ : Tensor),
          ⟨[3, 4], (allIdx [3, 4]).map (fun ix =>
            FloatVal.add ((⟨[3, 4], da⟩ : Tensor).bEl ix) ((⟨[4], db⟩ : Tensor).bEl ix))⟩]⟩, 2) from rfl]
    show Except.map (fun gs => (gs.getD 1 none, gs.getD 2 none))
      (Value.backward [⟨.leaf, [3, 4]⟩, ⟨.leaf, [4]⟩, ⟨.add 0 1, [3, 4]⟩] 2
        [(⟨[3, 4], da⟩ : Tensor), (⟨[4], db⟩ : Tensor),
          ⟨[3, 4], (allIdx [3, 4]).map (fun ix =>
            FloatVal.add ((⟨[3, 4], da⟩ : Tensor).bEl ix) ((⟨[4], db⟩ : Tensor).bEl ix))⟩]
        (noGrads [⟨.leaf, [3, 4]⟩, ⟨.leaf, [4]⟩, ⟨.add 0 1, [3, 4]⟩])) = _
    rw [Value.backward,
      show topoList ([⟨.leaf, [3, 4]⟩, ⟨.leaf, [4]⟩, ⟨.add 0 1, [3, 4]⟩] : Graph) 2 = [0, 1, 2] from rfl]
    show Except.map (fun gs => (gs.getD 1 none, gs.getD 2 none))
      (Except.bind (backstep [⟨.leaf, [3, 4]⟩, ⟨.leaf, [4]⟩, ⟨.add 0 1, [3, 4]⟩]
          [(⟨[3, 4], da⟩ : Tensor), (⟨[4], db⟩ : Tensor),
          ⟨[3, 4], (allIdx [3, 4]).map (fun ix =>
            FloatVal.add ((⟨[3, 4], da⟩ : Tensor).bEl ix) ((⟨[4], db⟩ : Tensor).bEl ix))⟩] 2
          [some (zerosT [3, 4]), some (zerosT [4]), some (onesT [3, 4])])
        (fun a1 => List.foldlM (fun a v => backstep [⟨.leaf, [3, 4]⟩, ⟨.leaf, [4]⟩, ⟨.add 0 1, [3, 4]⟩]
          [(⟨[3, 4], da⟩ : Tensor), (⟨[4], db⟩ : Tensor),
          ⟨[3, 4], (allIdx [3, 4]).map (fun ix =>
            FloatVal.add ((⟨[3, 4], da⟩ : Tensor).bEl ix) ((⟨[4], db⟩ : Tensor).bEl ix))⟩] v a)
          a1 [1, 0])) = _
    rw [hstep2]
    rfl
  · refine ⟨rfl, ?_⟩
    have hstep2 : backstep [⟨.leaf, [3, 4]⟩, ⟨.leaf, [4]⟩, ⟨.mul 0 1, [3, 4]⟩]
        [(⟨[3, 4], da⟩ : Tensor), (⟨[4], db⟩ : Tensor),
          ⟨[3, 4], (allIdx [3, 4]).map (fun ix =>
            FloatVal.mul ((⟨[3, 4], da⟩ : Tensor).bEl ix) ((⟨[4], db⟩ : Tensor).bEl ix))⟩] 2
        [some (zerosT [3, 4]), some (zerosT [4]), some (onesT [3, 4])] = .ok
        [some (⟨[3, 4], (allIdx [3, 4]).map (fun ix =>
            FloatVal.mul ((⟨[4], db⟩ : Tensor).bEl ix) ((onesT [3, 4]).bEl ix))⟩ : Tensor),
          some (sumT (⟨[3, 4], (allIdx [3, 4]).map (fun ix =>
            FloatVal.mul ((⟨[3, 4], da⟩ : Tensor).bEl ix) ((onesT [3, 4]).bEl ix))⟩ : Tensor) [0]),
          some (onesT [3, 4])] := by
      show Except.bind (accumAt 0 (⟨[3, 4], (allIdx [3, 4]).map (fun ix =>
            FloatVal.mul ((⟨[4], db⟩ : Tensor).bEl ix) ((onesT [3, 4]).bEl ix))⟩ : Tensor) [some (zerosT [3, 4]), some (zerosT [4]), some (onesT [3, 4])])
        (fun gs2 => accumAt 1 (sumT (⟨[3, 4], (allIdx [3, 4]).map (fun ix =>
            FloatVal.mul ((⟨[3, 4], da⟩ : Tensor).bEl ix) ((onesT [3, 4]).bEl ix))⟩ : Tensor) [0]) gs2) = _
      rw [accumAt_zeros 0 (⟨[3, 4], (allIdx [3, 4]).map (fun ix =>
            FloatVal.mul ((⟨[4], db⟩ : Tensor).bEl ix) ((onesT [3, 4]).bEl ix))⟩ : Tensor) [some (zerosT [3, 4]), some (zerosT [4]), some (onesT [3, 4])] rfl rfl]
      show accumAt 1 (sumT (⟨[3, 4], (allIdx [3, 4]).map (fun ix =>
            FloatVal.mul ((⟨[3, 4], da⟩ : Tensor).bEl ix) ((onesT [3, 4]).bEl ix))⟩ : Tensor) [0])
        [some (⟨[3, 4], (allIdx [3, 4]).map (fun ix =>
            FloatVal.mul ((⟨[4], db⟩ : Tensor).bEl ix) ((onesT [3, 4]).bEl ix))⟩ : Tensor), some (zerosT [4]), some (onesT [3, 4])] = _
      rw [accumAt_zeros 1 (sumT (⟨[3, 4], (allIdx [3, 4]).map (fun ix =>
            FloatVal.mul ((⟨[3, 4], da⟩ : Tensor).bEl ix) ((onesT [3, 4]).bEl ix))⟩ : Tensor) [0])
        [some (⟨[3, 4], (allIdx [3, 4]).map (fun ix =>
            FloatVal.mul ((⟨[4], db⟩ : Tensor).bEl ix) ((onesT [3, 4]).bEl ix))⟩ : Tensor), some (zerosT [4]), some (onesT [3, 4])] rfl rfl]
      rfl
    rw [show Value.mul 0 1 (c4Net da db) = .ok
        (⟨[⟨.leaf, [3, 4]⟩, ⟨.leaf, [4]⟩, ⟨.mul 0 1, [3, 4]⟩],
          [(⟨[3, 4], da⟩ : Tensor), (⟨[4], db⟩ : Tensor),
          ⟨[3, 4], (allIdx [3, 4]).map (fun ix =>
            FloatVal.mul ((⟨[3, 4], da⟩ : Tensor).bEl ix) ((⟨[4], db⟩ : Tensor).bEl ix))⟩]⟩, 2) from rfl]
    show Except.map (fun gs => (gs.getD 1 none, gs.getD 2 none))
      (Value.backward [⟨.leaf, [3, 4]⟩, ⟨.leaf, [4]⟩, ⟨.mul 0 1, [3, 4]⟩] 2
        [(⟨[3, 4], da⟩ : Tensor), (⟨[4], db⟩ : Tensor),
          ⟨[3, 4], (allIdx [3, 4]).map (fun ix =>
            FloatVal.mul ((⟨[3, 4], da⟩ : Tensor).bEl ix) ((⟨[4], db⟩ : Tensor).bEl ix))⟩]
        (noGrads [⟨.leaf, [3, 4]⟩, ⟨.leaf, [4]⟩, ⟨.mul 0 1, [3, 4]⟩])) = _
    rw [Value.backward,
      show topoList ([⟨.leaf, [3, 4]⟩, ⟨.leaf, [4]⟩, ⟨.mul 0 1, [3, 4]⟩] : Graph) 2 = [0, 1, 2] from rfl]
    show Except.map (fun gs => (gs.getD 1 none, gs.getD 2 none))
      (Except.bind (backstep [⟨.leaf, [3, 4]⟩, ⟨.leaf, [4]⟩, ⟨.mul 0 1, [3, 4]⟩]
          [(⟨[3, 4], da⟩ : Tensor), (⟨[4], db⟩ : Tensor),
          ⟨[3, 4], (allIdx [3, 4]).map (fun ix =>
            FloatVal.mul ((⟨[3, 4], da⟩ : Tensor).bEl ix) ((⟨[4], db⟩ : Tensor).bEl ix))⟩] 2
          [some (zerosT [3, 4]), some (zerosT [4]), some (onesT [3, 4])])
        (fun a1 => List.foldlM (fun a v => backstep [⟨.leaf, [3, 4]⟩, ⟨.leaf, [4]⟩, ⟨.mul 0 1, [3, 4]⟩]
          [(⟨[3, 4], da⟩ : Tensor), (⟨[4], db⟩ : Tensor),
          ⟨[3, 4], (allIdx [3, 4]).map (fun ix =>
            FloatVal.mul ((⟨[3, 4], da⟩ : Tensor).bEl ix) ((⟨[4], db⟩ : Tensor).bEl ix))⟩] v a)
          a1 [1, 0])) = _
    rw [hstep2]
    rfl


/-- A normalized axis argument covering all of 0..n-1 without
duplicates has exactly n entries. -/
theorem coversAll_length {n : Nat} {ax : AxisArg} (hc : CoversAll n ax) :
    (normAxes n ax).length = n := by
  have h1 : (normAxes n ax).toFinset = (Finset.range n).image (fun d : Nat => (d : Int)) := by
    ext d
    simp only [List.mem_toFinset, Finset.mem_image, Finset.mem_range]
    constructor
    · intro h
      have hb := hc.2.1 d h
      exact ⟨d.toNat, by omega, by omega⟩
    · rintro ⟨q, hq, rfl⟩
      exact hc.2.2 q hq
  have h2 := List.toFinset_card_of_nodup hc.1
  rw [h1, Finset.card_image_of_injective _ (fun x y hxy => by omega),
    Finset.card_range] at h2
  omega

theorem sumT_shape_all {t : Tensor} {l : List Nat}
    (hcov : ∀ d, d < t.shape.length → d ∈ l) : (sumT t l).shape = [] := by
  show ((List.range t.shape.length).filter (fun d => decide (d ∉ l))).map _ = []
  rw [List.filter_eq_nil_iff.mpr]
  · rfl
  · intro d hd
    simp [hcov d (List.mem_range.mp hd)]

theorem expandDims_scalar {n : Nat} {l : List Int} (c : FloatVal)
    (hnd : l.Nodup) (hlen : l.length = n) (hb : ∀ d ∈ l, 0 ≤ d ∧ d < (n : Int))
    (hcov : ∀ d : Nat, d < n → (d : Int) ∈ l) :
    expandDims ⟨[], [c]⟩ l = some ⟨List.replicate n 1, [c]⟩ := by
  have hn : (⟨[], [c]⟩ : Tensor).shape.length + l.length = n := by simpa using hlen
  have hq : l.map (deNeg ((⟨[], [c]⟩ : Tensor).shape.length + l.length)) = l := by
    refine (List.map_congr_left (fun d hd => ?_)).trans (List.map_id l)
    rw [deNeg, if_neg (by have := (hb d hd).1; omega)]
    rfl
  have hcovp : ∀ d : Nat, d < n → d ∈ axPos l := by
    intro d hd
    exact List.mem_map.mpr ⟨(d : Int), hcov d hd, by simp⟩
  unfold expandDims
  dsimp only
  rw [hq, if_pos ⟨hnd, fun d hd => by have := hb d hd; omega⟩]
  refine congrArg some ?_
  refine congrArg (fun sh => (⟨sh, [c]⟩ : Tensor)) ?_
  rw [hn]
  calc (List.range n).map (fun d =>
        if d ∈ axPos l then 1 else (⟨[], [c]⟩ : Tensor).shape.getD
          (d - (axPos l).countP (fun a => decide (a < d))) 0)
      = (List.range n).map (fun _ => 1) := by
        refine List.map_congr_left (fun d hd => ?_)
        rw [if_pos (hcovp d (List.mem_range.mp hd))]
    _ = List.replicate n 1 := by
        rw [List.map_const']
        simp

theorem constT_wf (s : List Nat) (c : FloatVal) : (constT s c).wf := by
  simp [Tensor.wf, constT]

theorem flatPos_replicate_ones (n : Nat) :
    flatPos (List.replicate n 1) (List.replicate n 0) = 0 := by
  induction n with
  | zero => rfl
  | succ m ih =>
      show 0 * (List.replicate m 1).prod + flatPos (List.replicate m 1) (List.replicate m 0) = 0
      rw [ih]
      omega

theorem clampIx_replicate_ones {n : Nat} {ix : List Nat} (h : ix.length = n) :
    clampIx (List.replicate n 1) ix = List.replicate n 0 := by
  rw [clampIx]
  rw [show ix.length - (List.replicate n 1).length = 0 by simp [h], List.drop_zero]
  induction n generalizing ix with
  | zero => simp
  | succ m ih =>
      rcases ix with _ | ⟨i, is⟩
      · simp at h
      · show (if (1 : Nat) = 1 then 0 else i) :: _ = _
        rw [if_pos rfl, List.replicate_succ]
        have := ih (show is.length = m by simpa using h)
        rw [show List.zipWith (fun d i => if d = 1 then 0 else i)
          (List.replicate m 1) is = List.replicate m 0 from this]

theorem bArr_scalar_ones {s : List Nat} (c : FloatVal) :
    bArr ⟨List.replicate s.length 1, [c]⟩ s = constT s c := by
  rw [bArr, constT]
  refine congrArg (fun dl => (⟨s, dl⟩ : Tensor)) ?_
  calc (allIdx s).map (fun ix => Tensor.bEl ⟨List.replicate s.length 1, [c]⟩ ix)
      = (allIdx s).map (fun _ => c) := by
        refine List.map_congr_left (fun ix hix => ?_)
        rw [Tensor.bEl, Tensor.el]
        rw [show Tensor.shape ⟨List.replicate s.length 1, [c]⟩ = List.replicate s.length 1
          from rfl]
        rw [clampIx_replicate_ones (length_mem_allIdx hix), flatPos_replicate_ones]
        rfl
    _ = List.replicate s.prod c := by
        rw [List.map_const', length_allIdx]

/-- C3: for every node `x` and any axis argument denoting the set of
all of `x`'s axes, calling `x.sum(axis).backward()` succeeds and yields
`x.gradient` equal to the all-ones tensor of `x`'s shape: the scalar
output gradient is broadcast back to every reduced position undivided
(the root's own gradient is the scalar one). -/
theorem sum_all_backward_ones (t : Tensor) (ax : AxisArg)
    (hc : CoversAll t.shape.length ax) :
    (sumAllNet t ax).bind
      (fun p => Value.backward p.1.nodes p.2 p.1.data (noGrads p.1.nodes)) =
    .ok [some (onesT t.shape), some (onesT [])] := by
  have hcovp : ∀ d, d < t.shape.length → d ∈ axPos (normAxes t.shape.length ax) := by
    intro d hd
    exact List.mem_map.mpr ⟨(d : Int), hc.2.2 d hd, by simp⟩
  have hsh : (sumT t (axPos (normAxes t.shape.length ax))).shape = [] :=
    sumT_shape_all hcovp
  have hbuild0 : sumAllNet t ax = .ok
      (⟨[⟨.leaf, t.shape⟩, ⟨.sum 0 ax, (sumT t (axPos (normAxes t.shape.length ax))).shape⟩],
        [t, sumT t (axPos (normAxes t.shape.length ax))]⟩, 1) := by
    show (if (normAxes t.shape.length ax).Nodup ∧
        ∀ d ∈ (normAxes t.shape.length ax), 0 ≤ d ∧ d < (t.shape.length : Int)
      then Except.ok ((Value.leaf t Net.empty).1.push (.sum 0 ax)
        (sumT (dataOf (Value.leaf t Net.empty).1.data 0) (axPos (normAxes t.shape.length ax))))
      else Except.error Err.broadcast) = _
    rw [if_pos ⟨hc.1, hc.2.1⟩]
    rfl
  rw [hsh] at hbuild0
  have hexp : expandDims (onesT []) (normAxes t.shape.length ax) =
      some ⟨List.replicate t.shape.length 1, [.fin 1]⟩ := by
    rw [show (onesT []) = (⟨[], [FloatVal.fin 1]⟩ : Tensor) from rfl]
    exact expandDims_scalar _ hc.1 (coversAll_length hc) hc.2.1 hc.2.2
  have hstep1 : backstep [(⟨.leaf, t.shape⟩ : Value), ⟨.sum 0 ax, []⟩] [t, sumT t (axPos (normAxes t.shape.length ax))] 1 [some (zerosT t.shape), some (onesT [])] =
      .ok [some (constT t.shape (.fin 1)), some (onesT [])] := by
    show Except.bind (liftO Err.broadcast (expandDims (onesT []) (normAxes t.shape.length ax)))
      (fun eg => Except.bind (liftO Err.broadcast (bcast eg.shape t.shape))
        (fun bs => accumAt 0 (bArr eg bs) [some (zerosT t.shape), some (onesT [])])) = _
    rw [hexp]
    show Except.bind (liftO Err.broadcast (bcast (List.replicate t.shape.length 1) t.shape))
      (fun bs => accumAt 0 (bArr ⟨List.replicate t.shape.length 1, [.fin 1]⟩ bs) [some (zerosT t.shape), some (onesT [])]) = _
    rw [bcast_ones t.shape]
    show accumAt 0 (bArr ⟨List.replicate t.shape.length 1, [.fin 1]⟩ t.shape) [some (zerosT t.shape), some (onesT [])] = _
    rw [bArr_scalar_ones (FloatVal.fin 1)]
    rw [accumAt_zeros 0 (constT t.shape (.fin 1)) [some (zerosT t.shape), some (onesT [])] rfl (constT_wf _ _)]
    rfl
  rw [hbuild0]
  show Value.backward [(⟨.leaf, t.shape⟩ : Value), ⟨.sum 0 ax, []⟩] 1 [t, sumT t (axPos (normAxes t.shape.length ax))] (noGrads [(⟨.leaf, t.shape⟩ : Value), ⟨.sum 0 ax, []⟩]) = _
  rw [Value.backward, show topoList ([(⟨.leaf, t.shape⟩ : Value), ⟨.sum 0 ax, []⟩] : Graph) 1 = [0, 1] from rfl]
  show Except.bind (backstep [(⟨.leaf, t.shape⟩ : Value), ⟨.sum 0 ax, []⟩] [t, sumT t (axPos (normAxes t.shape.length ax))] 1 [some (zerosT t.shape), some (onesT [])])
    (fun a1 => List.foldlM (fun a v => backstep [(⟨.leaf, t.shape⟩ : Value), ⟨.sum 0 ax, []⟩] [t, sumT t (axPos (normAxes t.shape.length ax))] v a) a1 [0]) = _
  rw [hstep1]
  rfl

/-- C3, witness: the theorem applied to a concrete `[2,3]` tensor with
the axis tuple `(-1, -2)`, which normalizes to the full axis set
`{1, 0}`. -/
theorem sum_all_backward_ones_witness :
    CoversAll 2 (some [-1, -2], none) ∧
    (sumAllNet ⟨[2, 3], [.fin 1, .fin 2, .fin 3, .fin 4, .fin 5, .fin 6]⟩
        (some [-1, -2], none)).bind
      (fun p => Value.backward p.1.nodes p.2 p.1.data (noGrads p.1.nodes)) =
    .ok [some (onesT [2, 3]), some (onesT [])] :=
  ⟨by decide, sum_all_backward_ones _ _ (by decide)⟩


/-- C8: for every placeholder whose name is absent from the bindings
passed to `forward()`, the forward pass returns without raising, with
the warned flag set, the placeholder's value set to the all-not-a-number
tensor of its declared shape, and evaluation continued downstream (the
consuming add recomputes, to all-not-a-number as well). -/
theorem forward_unbound_placeholder (nm : String) (s : List Nat)
    (bnd : List (String × Tensor)) (h : bnd.lookup nm = none) :
    (phNet nm s).bind (fun p => Value.forward p.1.nodes p.2 bnd p.1.data) =
    .ok ([constT s .nan, constT s .nan], true) := by
  have hbuild : phNet nm s = .ok
      (⟨[⟨.ph nm, s⟩, ⟨.add 0 0, s⟩], [constT s .nan, constT s .nan]⟩, 1) := by
    rw [phNet, Value.add,
      show dataOf (Value.placeholder nm s Net.empty).1.data 0 = constT s .nan from rfl,
      ewB_const_const FloatVal.add s .nan .nan]
    rfl
  have hstep0 : forwardStep [(⟨.ph nm, s⟩ : Value), ⟨.add 0 0, s⟩] bnd 0
      ([constT s .nan, constT s .nan], false) =
      .ok ([constT s .nan, constT s .nan], true) := by
    show (match bnd.lookup nm with
      | some tv =>
          if tv.shape = s
          then Except.ok (([constT s FloatVal.nan, constT s FloatVal.nan].set 0 tv : DataSt),
            false)
          else Except.error Err.shapeAssert
      | none => Except.ok (([constT s FloatVal.nan, constT s FloatVal.nan].set 0
          (constT s FloatVal.nan) : DataSt), true)) = _
    rw [h]
    rfl
  have hstep1 : forwardStep [(⟨.ph nm, s⟩ : Value), ⟨.add 0 0, s⟩] bnd 1
      ([constT s .nan, constT s .nan], true) =
      .ok ([constT s .nan, constT s .nan], true) := by
    show Except.bind (liftO Err.broadcast (ewB FloatVal.add (constT s .nan) (constT s .nan)))
      (fun t => Except.ok (([constT s .nan, constT s .nan].set 1 t : DataSt), true)) = _
    rw [ewB_const_const FloatVal.add s .nan .nan]
    rfl
  rw [hbuild]
  show Value.forward [⟨.ph nm, s⟩, ⟨.add 0 0, s⟩] 1 bnd [constT s .nan, constT s .nan] = _
  rw [Value.forward,
    show topoList [(⟨.ph nm, s⟩ : Value), ⟨.add 0 0, s⟩] 1 = [0, 1] from rfl]
  show Except.bind (forwardStep [(⟨.ph nm, s⟩ : Value), ⟨.add 0 0, s⟩] bnd 0
      ([constT s .nan, constT s .nan], false))
    (fun st => List.foldlM (fun a v => forwardStep [(⟨.ph nm, s⟩ : Value), ⟨.add 0 0, s⟩] bnd v a)
      st [1]) = _
  rw [hstep0]
  show Except.bind (forwardStep [(⟨.ph nm, s⟩ : Value), ⟨.add 0 0, s⟩] bnd 1
      ([constT s .nan, constT s .nan], true))
    (fun st => Except.ok st) = _
  rw [hstep1]
  rfl

/-- C8, witness: forwarding the placeholder graph for name `x` of shape
`[2]` under bindings that only bind `y`. -/
theorem forward_unbound_placeholder_witness :
    (([("y", onesT [2])] : List (String × Tensor)).lookup "x" = none) ∧
    (phNet "x" [2]).bind
      (fun p => Value.forward p.1.nodes p.2 [("y", onesT [2])] p.1.data) =
    .ok ([constT [2] .nan, constT [2] .nan], true) :=
  ⟨by decide, forward_unbound_placeholder _ _ _ (by decide)⟩


/-- The spec-side matrix product is well formed, and rank-2 membership
in the index enumeration destructs into a bounded pair. -/
theorem mmSpec_wf (m n p : Nat) (X Y : Tensor) : (mmSpec m n p X Y).wf := by
  simp [Tensor.wf, mmSpec, length_allIdx]

theorem mem_allIdx_pair {m p : Nat} {ix : List Nat} (h : ix ∈ allIdx [m, p]) :
    ∃ i j, ix = [i, j] ∧ i < m ∧ j < p := by
  rcases mem_allIdx_cons.mp h with ⟨i, is, rfl, hi, his⟩
  rcases mem_allIdx_cons.mp his with ⟨j, is2, rfl, hj, his2⟩
  have h2 : is2 = [] := by simpa [allIdx] using his2
  subst h2
  exact ⟨i, j, rfl, hi, hj⟩

theorem tdotFn_matmul (m n p : Nat) (a b : Tensor)
    (ha : a.shape = [m, n]) (hb : b.shape = [n, p]) :
    tdotFn a b [-1] [0] = some (mmSpec m n p a b) := by
  rcases a with ⟨sa, da⟩
  rcases b with ⟨sb, db⟩
  simp only at ha hb
  subst ha hb
  unfold tdotFn mmSpec
  dsimp only
  split_ifs with hcond
  · rw [Option.some.injEq, Tensor.mk.injEq]
    refine ⟨rfl, ?_⟩
    refine List.map_congr_left (fun ix hix => ?_)
    rcases mem_allIdx_pair hix with ⟨i, j, rfl, hi, hj⟩
    show List.foldl
        (fun acc kc =>
          acc.add ((Tensor.el ⟨[m, n], da⟩ (assemble 2 [(0, i)] ([1].zip kc))).mul
            (Tensor.el ⟨[n, p], db⟩ (assemble 2 [(1, j)] ([0].zip kc)))))
        (FloatVal.fin 0) (allIdx [n]) = _
    rw [show allIdx [n] = (List.range (List.prod [n])).map (unflatten [n])
        from allIdx_eq_map_unflatten [n],
      show List.prod [n] = n by simp, List.foldl_map]
    refine List.foldl_ext _ _ _ (fun acc q hq => ?_)
    rw [show unflatten [n] q = [q] by simp [unflatten]]
    rfl
  · exfalso
    refine hcond ⟨rfl, ?_, ?_, ?_, ?_, rfl⟩
    · show List.Nodup [(1 : Int)]
      decide
    · show List.Nodup [(0 : Int)]
      decide
    · show ∀ x ∈ [(1 : Int)], 0 ≤ x ∧ x < 2
      decide
    · show ∀ x ∈ [(0 : Int)], 0 ≤ x ∧ x < 2
      decide

set_option maxHeartbeats 1600000 in
/-- C5: for every pair of rank-2 nodes `A` (shape `(m,n)`) and `B`
(shape `(n,p)`), tensor contraction with depth 1 computes the standard
matrix product `A @ B`, and after `backward()` the gradient of `A` is
`dL/dC @ B^T` and the gradient of `B` is `A^T @ dL/dC`, where `dL/dC`
is the output's (all-ones) gradient, shown as the third projection. -/
theorem tensordot_depth1_matmul (m n p : Nat) (da db : List FloatVal) :
    (mmNet (⟨[m, n], da⟩ : Tensor) (⟨[n, p], db⟩ : Tensor)).map (fun q => dataOf q.1.data q.2) =
      .ok (mmSpec m n p (⟨[m, n], da⟩ : Tensor) (⟨[n, p], db⟩ : Tensor)) ∧
    ((mmNet (⟨[m, n], da⟩ : Tensor) (⟨[n, p], db⟩ : Tensor)).bind
      (fun q => Value.backward q.1.nodes q.2 q.1.data (noGrads q.1.nodes))).map
      (fun gs => (gs.getD 0 none, gs.getD 1 none, gs.getD 2 none)) =
    .ok (some (mmSpec m p n (onesT [m, p]) (transposeT (⟨[n, p], db⟩ : Tensor))),
      some (mmSpec n m p (transposeT (⟨[m, n], da⟩ : Tensor)) (onesT [m, p])),
      some (onesT [m, p])) := by
  have hbuild : mmNet (⟨[m, n], da⟩ : Tensor) (⟨[n, p], db⟩ : Tensor) = .ok
      (⟨[(⟨.leaf, [m, n]⟩ : Value), ⟨.leaf, [n, p]⟩, ⟨.tdot 0 1 1, [m, p]⟩], [(⟨[m, n], da⟩ : Tensor), (⟨[n, p], db⟩ : Tensor), mmSpec m n p (⟨[m, n], da⟩ : Tensor) (⟨[n, p], db⟩ : Tensor)]⟩, 2) := by
    rw [mmNet, tensordot]
    show Except.bind (liftO Err.broadcast (tdotFn (⟨[m, n], da⟩ : Tensor) (⟨[n, p], db⟩ : Tensor) [-1] [0]))
      (fun t => Except.ok ((Value.leaf (⟨[n, p], db⟩ : Tensor) (Value.leaf (⟨[m, n], da⟩ : Tensor) Net.empty).1).1.push
        (.tdot 0 1 1) t)) = _
    rw [tdotFn_matmul m n p (⟨[m, n], da⟩ : Tensor) (⟨[n, p], db⟩ : Tensor) rfl rfl]
    rfl
  have hstep2 : backstep [(⟨.leaf, [m, n]⟩ : Value), ⟨.leaf, [n, p]⟩, ⟨.tdot 0 1 1, [m, p]⟩] [(⟨[m, n], da⟩ : Tensor), (⟨[n, p], db⟩ : Tensor), mmSpec m n p (⟨[m, n], da⟩ : Tensor) (⟨[n, p], db⟩ : Tensor)] 2 [some (zerosT [m, n]), some (zerosT [n, p]), some (onesT [m, p])] = .ok
      [some (mmSpec m p n (onesT [m, p]) (transposeT (⟨[n, p], db⟩ : Tensor))), some (mmSpec n m p (transposeT (⟨[m, n], da⟩ : Tensor)) (onesT [m, p])), some (onesT [m, p])] := by
    show Except.bind (liftO Err.broadcast
        (tdotFn (onesT [m, p]) (transposeT (⟨[n, p], db⟩ : Tensor)) [-1] [0]))
      (fun cl => Except.bind (accumAt 0 cl [some (zerosT [m, n]), some (zerosT [n, p]), some (onesT [m, p])])
        (fun gs2 => Except.bind (liftO Err.broadcast
            (tdotFn (transposeT (⟨[m, n], da⟩ : Tensor)) (onesT [m, p]) [-1] [0]))
          (fun cr => accumAt 1 cr gs2))) = _
    rw [tdotFn_matmul m p n (onesT [m, p]) (transposeT (⟨[n, p], db⟩ : Tensor)) rfl rfl]
    show Except.bind (accumAt 0 (mmSpec m p n (onesT [m, p]) (transposeT (⟨[n, p], db⟩ : Tensor))) [some (zerosT [m, n]), some (zerosT [n, p]), some (onesT [m, p])])
      (fun gs2 => Except.bind (liftO Err.broadcast
          (tdotFn (transposeT (⟨[m, n], da⟩ : Tensor)) (onesT [m, p]) [-1] [0]))
        (fun cr => accumAt 1 cr gs2)) = _
    rw [accumAt_zeros 0 (mmSpec m p n (onesT [m, p]) (transposeT (⟨[n, p], db⟩ : Tensor))) [some (zerosT [m, n]), some (zerosT [n, p]), some (onesT [m, p])] rfl (mmSpec_wf _ _ _ _ _)]
    show Except.bind (liftO Err.broadcast
        (tdotFn (transposeT (⟨[m, n], da⟩ : Tensor)) (onesT [m, p]) [-1] [0]))
      (fun cr => accumAt 1 cr
        [some (mmSpec m p n (onesT [m, p]) (transposeT (⟨[n, p], db⟩ : Tensor))), some (zerosT [n, p]), some (onesT [m, p])]) = _
    rw [tdotFn_matmul n m p (transposeT (⟨[m, n], da⟩ : Tensor)) (onesT [m, p]) rfl rfl]
    show accumAt 1 (mmSpec n m p (transposeT (⟨[m, n], da⟩ : Tensor)) (onesT [m, p]))
      [some (mmSpec m p n (onesT [m, p]) (transposeT (⟨[n, p], db⟩ : Tensor))), some (zerosT [n, p]), some (onesT [m, p])] = _
    rw [accumAt_zeros 1 (mmSpec n m p (transposeT (⟨[m, n], da⟩ : Tensor)) (onesT [m, p]))
      [some (mmSpec m p n (onesT [m, p]) (transposeT (⟨[n, p], db⟩ : Tensor))), some (zerosT [n, p]), some (onesT [m, p])] rfl (mmSpec_wf _ _ _ _ _)]
    rfl
  refine ⟨by rw [hbuild]; rfl, ?_⟩
  rw [hbuild]
  show Except.map (fun gs => (gs.getD 0 none, gs.getD 1 none, gs.getD 2 none))
    (Value.backward [(⟨.leaf, [m, n]⟩ : Value), ⟨.leaf, [n, p]⟩, ⟨.tdot 0 1 1, [m, p]⟩] 2 [(⟨[m, n], da⟩ : Tensor), (⟨[n, p], db⟩ : Tensor), mmSpec m n p (⟨[m, n], da⟩ : Tensor) (⟨[n, p], db⟩ : Tensor)] (noGrads [(⟨.leaf, [m, n]⟩ : Value), ⟨.leaf, [n, p]⟩, ⟨.tdot 0 1 1, [m, p]⟩])) = _
  rw [Value.backward, show topoList ([(⟨.leaf, [m, n]⟩ : Value), ⟨.leaf, [n, p]⟩, ⟨.tdot 0 1 1, [m, p]⟩] : Graph) 2 = [0, 1, 2] from rfl]
  show Except.map (fun gs => (gs.getD 0 none, gs.getD 1 none, gs.getD 2 none))
    (Except.bind (backstep [(⟨.leaf, [m, n]⟩ : Value), ⟨.leaf, [n, p]⟩, ⟨.tdot 0 1 1, [m, p]⟩] [(⟨[m, n], da⟩ : Tensor), (⟨[n, p], db⟩ : Tensor), mmSpec m n p (⟨[m, n], da⟩ : Tensor) (⟨[n, p], db⟩ : Tensor)] 2 [some (zerosT [m, n]), some (zerosT [n, p]), some (onesT [m, p])])
      (fun a1 => List.foldlM (fun a v => backstep [(⟨.leaf, [m, n]⟩ : Value), ⟨.leaf, [n, p]⟩, ⟨.tdot 0 1 1, [m, p]⟩] [(⟨[m, n], da⟩ : Tensor), (⟨[n, p], db⟩ : Tensor), mmSpec m n p (⟨[m, n], da⟩ : Tensor) (⟨[n, p], db⟩ : Tensor)] v a) a1 [1, 0])) = _
  rw [hstep2]
  rfl

theorem foldl_dfs_subset (g : Graph) (fuel : Nat)
    (hsub : ∀ (v : Nat) (acc : List Nat), acc ⊆ dfs g fuel v acc) :
    ∀ (l : List Nat) (acc : List Nat), acc ⊆ l.foldl (fun a c => dfs g fuel c a) acc := by
  intro l
  induction l with
  | nil => intro acc; exact fun x h => h
  | cons c cs ih =>
      intro acc
      exact fun x hx => ih (dfs g fuel c acc) (hsub c acc hx)

theorem dfs_subset (g : Graph) : ∀ (fuel v : Nat) (acc : List Nat), acc ⊆ dfs g fuel v acc := by
  intro fuel
  induction fuel with
  | zero =>
      intro v acc
      rw [dfs]
      exact fun x h => h
  | succ f ih =>
      intro v acc
      rw [dfs]
      by_cases hv : v ∈ acc
      · rw [if_pos hv]
        exact fun x h => h
      · rw [if_neg hv]
        intro x hx
        exact List.mem_append_left _ (foldl_dfs_subset g f ih _ acc hx)

theorem dfs_mem (g : Graph) (fuel v : Nat) (acc : List Nat) (hf : 0 < fuel) :
    v ∈ dfs g fuel v acc := by
  rcases fuel with _ | f
  · omega
  · rw [dfs]
    by_cases hv : v ∈ acc
    · rw [if_pos hv]; exact hv
    · rw [if_neg hv]
      exact List.mem_append_right _ (by simp)

theorem dfs_closed (g : Graph) (hw : WFG g) :
    ∀ (fuel v : Nat) (acc : List Nat), v < fuel → ParentsClosed g acc →
      ParentsClosed g (dfs g fuel v acc) := by
  intro fuel
  induction fuel with
  | zero => intro v acc hv; omega
  | succ f ih =>
      intro v acc hv hacc
      rw [dfs]
      by_cases hmem : v ∈ acc
      · rw [if_pos hmem]; exact hacc
      · rw [if_neg hmem]
        have hpv : ∀ q ∈ (nodeOf g v).op.parents, q < v := by
          by_cases hvg : v < g.length
          · exact hw v hvg
          · intro q hq
            exfalso
            have : nodeOf g v = ⟨.leaf, []⟩ := by
              rw [nodeOf, List.getD_eq_getElem?_getD, List.getElem?_eq_none (by omega)]
              rfl
            rw [this] at hq
            simp [Op.parents] at hq
        -- fold over parents: closed, and every parent lands in the fold result
        have hfold : ∀ (l : List Nat), (∀ c ∈ l, c < v) → ∀ acc2, ParentsClosed g acc2 →
            ParentsClosed g (l.foldl (fun a c => dfs g f c a) acc2) ∧
            ∀ c ∈ l, c ∈ l.foldl (fun a c => dfs g f c a) acc2 := by
          intro l
          induction l with
          | nil => intro _ acc2 h2; exact ⟨h2, by simp⟩
          | cons c cs ihl =>
              intro hb acc2 h2
              have hcf : c < f := by
                have := hb c (by simp)
                omega
              have h3 : ParentsClosed g (dfs g f c acc2) := ih c acc2 hcf h2
              have hcs := ihl (fun x hx => hb x (by simp [hx])) (dfs g f c acc2) h3
              refine ⟨hcs.1, ?_⟩
              intro x hx
              rcases List.mem_cons.mp hx with rfl | hx2
              · exact foldl_dfs_subset g f (dfs_subset g f) cs _
                  (dfs_mem g f x acc2 (by omega))
              · exact hcs.2 x hx2
        have hres := hfold (nodeOf g v).op.parents hpv acc hacc
        intro w hw2 q hq
        rcases List.mem_append.mp hw2 with hw3 | hw4
        · exact List.mem_append_left _ (hres.1 w hw3 q hq)
        · have : w = v := by simpa using hw4
          subst this
          exact List.mem_append_left _ (hres.2 q hq)

theorem topoList_closed (g : Graph) (root : Nat) (hw : WFG g) :
    ParentsClosed g (topoList g root) :=
  dfs_closed g hw (root + 1) root [] (by omega) (by intro v hv; simp at hv)

theorem getD_set_char (l : GradSt) (p : Nat) (x : Option Tensor) (i : Nat) :
    (l.set p x).getD i none = if p = i ∧ p < l.length then x else l.getD i none := by
  rw [List.getD_eq_getElem?_getD, List.getD_eq_getElem?_getD, List.getElem?_set]
  by_cases hpi : p = i
  · subst hpi
    by_cases hp : p < l.length
    · simp [hp]
    · simp [hp, List.getElem?_eq_none (by omega : l.length ≤ p)]
  · simp [hpi]

theorem getD_none_of_le {l : GradSt} {i : Nat} (h : l.length ≤ i) :
    l.getD i none = none := by
  rw [List.getD_eq_getElem?_getD, List.getElem?_eq_none h]
  rfl

theorem seedGrads_length (g : Graph) (root : Nat) (T : List Nat) (gs : GradSt) :
    (seedGrads g root T gs).length = gs.length := by
  induction T generalizing gs with
  | nil => rfl
  | cons t ts ih =>
      show (seedGrads g root ts (gs.set t (some (seedVal g root t)))).length = _
      rw [ih, List.length_set]

theorem seedGrads_getD (g : Graph) (root : Nat) (T : List Nat) (gs : GradSt) (i : Nat) :
    (seedGrads g root T gs).getD i none =
      if i ∈ T ∧ i < gs.length then some (seedVal g root i) else gs.getD i none := by
  induction T generalizing gs with
  | nil => simp [seedGrads]
  | cons t ts ih =>
      show (seedGrads g root ts (gs.set t (some (seedVal g root t)))).getD i none = _
      rw [ih, getD_set_char, List.length_set]
      by_cases hts : i ∈ ts
      · by_cases hil : i < gs.length
        · simp [hts, hil]
        · by_cases hit : t = i
          · subst hit
            simp [hts, hil]
          · simp [hts, hil, hit]
      · by_cases hit : t = i
        · subst hit
          by_cases hil : t < gs.length
          · simp [hts, hil]
          · simp [hts, hil]
        · have hcons : ¬ (i ∈ t :: ts) := by
            simp only [List.mem_cons]
            rintro (h | h)
            · exact hit h.symm
            · exact hts h
          simp [hts, hit, hcons]

theorem eqOnT_set (T : List Nat) (gs1 gs2 : GradSt) (p : Nat) (x : Option Tensor)
    (hlen : gs1.length = gs2.length)
    (heq : ∀ i ∈ T, gs1.getD i none = gs2.getD i none) :
    ∀ i ∈ T, (gs1.set p x).getD i none = (gs2.set p x).getD i none := by
  intro i hi
  rw [getD_set_char, getD_set_char, hlen]
  by_cases hp1 : p = i
  · subst hp1
    by_cases hp2 : p < gs2.length
    · simp [hp2]
    · simp only [hp2, and_false, if_false]
      exact heq _ hi
  · simp only [hp1, false_and, if_false]
    exact heq i hi

theorem accumAt_rel (T : List Nat) (p : Nat) (c : Tensor) (gs1 gs2 : GradSt)
    (hp : p ∈ T) (hlen : gs1.length = gs2.length)
    (heq : ∀ i ∈ T, gs1.getD i none = gs2.getD i none) :
    BackRel T (accumAt p c gs1) (accumAt p c gs2) := by
  have hng : needGrad gs1 p = needGrad gs2 p := by
    rw [needGrad, needGrad, heq p hp]
  show BackRel T ((needGrad gs1 p).bind (fun gi => (iadd gi c).bind
      (fun gi2 => Except.ok (gs1.set p (some gi2)))))
    ((needGrad gs2 p).bind (fun gi => (iadd gi c).bind
      (fun gi2 => Except.ok (gs2.set p (some gi2)))))
  rw [hng]
  cases needGrad gs2 p with
  | error e => exact rfl
  | ok gi =>
      show BackRel T ((iadd gi c).bind (fun gi2 => Except.ok (gs1.set p (some gi2))))
        ((iadd gi c).bind (fun gi2 => Except.ok (gs2.set p (some gi2))))
      cases iadd gi c with
      | error e => exact rfl
      | ok t =>
          exact ⟨by simp [hlen], eqOnT_set T gs1 gs2 p (some t) hlen heq⟩

theorem backRel_bind (T : List Nat) {m1 m2 : Except Err GradSt}
    {f1 f2 : GradSt → Except Err GradSt} (h : BackRel T m1 m2)
    (hf : ∀ a b, a.length = b.length → (∀ i ∈ T, a.getD i none = b.getD i none) →
      BackRel T (f1 a) (f2 b)) :
    BackRel T (m1.bind f1) (m2.bind f2) := by
  cases m1 with
  | error e1 =>
      cases m2 with
      | error e2 =>
          have he : e1 = e2 := h
          subst he
          exact rfl
      | ok b => exact absurd h (by simp [BackRel])
  | ok a =>
      cases m2 with
      | error e2 => exact absurd h (by simp [BackRel])
      | ok b => exact hf a b h.1 h.2

theorem backstep_rel (g : Graph) (d : DataSt) (T : List Nat) (v : Nat)
    (hv : v ∈ T) (hpar : ∀ q ∈ (nodeOf g v).op.parents, q ∈ T)
    (gs1 gs2 : GradSt) (hlen : gs1.length = gs2.length)
    (heq : ∀ i ∈ T, gs1.getD i none = gs2.getD i none) :
    BackRel T (backstep g d v gs1) (backstep g d v gs2) := by
  have hng : needGrad gs1 v = needGrad gs2 v := by
    rw [needGrad, needGrad, heq v hv]
  cases hop : (nodeOf g v).op with
  | leaf =>
      simp only [backstep, hop]
      exact ⟨hlen, heq⟩
  | ph nm =>
      simp only [backstep, hop]
      exact ⟨hlen, heq⟩
  | add l r =>
      have hl : l ∈ T := hpar l (by rw [hop]; simp [Op.parents])
      have hr : r ∈ T := hpar r (by rw [hop]; simp [Op.parents])
      simp only [backstep, hop]
      rw [hng]
      cases needGrad gs2 v with
      | error e => exact rfl
      | ok og =>
          show BackRel T
            ((accumAt l (addContrib g v l og) gs1).bind
              (fun gs' => accumAt r (addContrib g v r og) gs'))
            ((accumAt l (addContrib g v l og) gs2).bind
              (fun gs' => accumAt r (addContrib g v r og) gs'))
          refine backRel_bind T (accumAt_rel T l _ gs1 gs2 hl hlen heq) ?_
          intro a b hab heqab
          exact accumAt_rel T r _ a b hr hab heqab
  | mul l r =>
      have hl : l ∈ T := hpar l (by rw [hop]; simp [Op.parents])
      have hr : r ∈ T := hpar r (by rw [hop]; simp [Op.parents])
      simp only [backstep, hop]
      rw [hng]
      cases needGrad gs2 v with
      | error e => exact rfl
      | ok og =>
          show BackRel T
            ((liftO Err.broadcast (ewB FloatVal.mul (dataOf d r) og)).bind
              (fun pl => (accumAt l (if ndimOf g l < ndimOf g v
                  then sumT pl (List.range (ndimOf g v - ndimOf g l)) else pl) gs1).bind
                (fun gs' => (liftO Err.broadcast (ewB FloatVal.mul (dataOf d l) og)).bind
                  (fun pr => accumAt r (if ndimOf g r < ndimOf g v
                    then sumT pr (List.range (ndimOf g v - ndimOf g r)) else pr) gs'))))
            ((liftO Err.broadcast (ewB FloatVal.mul (dataOf d r) og)).bind
              (fun pl => (accumAt l (if ndimOf g l < ndimOf g v
                  then sumT pl (List.range (ndimOf g v - ndimOf g l)) else pl) gs2).bind
                (fun gs' => (liftO Err.broadcast (ewB FloatVal.mul (dataOf d l) og)).bind
                  (fun pr => accumAt r (if ndimOf g r < ndimOf g v
                    then sumT pr (List.range (ndimOf g v - ndimOf g r)) else pr) gs'))))
          cases liftO Err.broadcast (ewB FloatVal.mul (dataOf d r) og) with
          | error e => exact rfl
          | ok pl =>
              refine backRel_bind T (accumAt_rel T l _ gs1 gs2 hl hlen heq) ?_
              intro a b hab heqab
              show BackRel T
                ((liftO Err.broadcast (ewB FloatVal.mul (dataOf d l) og)).bind
                  (fun pr => accumAt r (if ndimOf g r < ndimOf g v
                    then sumT pr (List.range (ndimOf g v - ndimOf g r)) else pr) a))
                ((liftO Err.broadcast (ewB FloatVal.mul (dataOf d l) og)).bind
                  (fun pr => accumAt r (if ndimOf g r < ndimOf g v
                    then sumT pr (List.range (ndimOf g v - ndimOf g r)) else pr) b))
              cases liftO Err.broadcast (ewB FloatVal.mul (dataOf d l) og) with
              | error e => exact rfl
              | ok pr => exact accumAt_rel T r _ a b hr hab heqab
  | log sp =>
      have hs : sp ∈ T := hpar sp (by rw [hop]; simp [Op.parents])
      simp only [backstep, hop]
      rw [hng]
      cases needGrad gs2 v with
      | error e => exact rfl
      | ok og =>
          show BackRel T
            ((liftO Err.broadcast (ewB FloatVal.mul
                (((dataOf d sp).map1 (fun x => if x.ge (.fin 0) then x else .nan)).map1
                  (FloatVal.div (.fin 1))) og)).bind
              (fun c => accumAt sp c gs1))
            ((liftO Err.broadcast (ewB FloatVal.mul
                (((dataOf d sp).map1 (fun x => if x.ge (.fin 0) then x else .nan)).map1
                  (FloatVal.div (.fin 1))) og)).bind
              (fun c => accumAt sp c gs2))
          cases liftO Err.broadcast (ewB FloatVal.mul
              (((dataOf d sp).map1 (fun x => if x.ge (.fin 0) then x else .nan)).map1
                (FloatVal.div (.fin 1))) og) with
          | error e => exact rfl
          | ok c => exact accumAt_rel T sp c gs1 gs2 hs hlen heq
  | arctanh sp =>
      have hs : sp ∈ T := hpar sp (by rw [hop]; simp [Op.parents])
      simp only [backstep, hop]
      rw [hng]
      cases needGrad gs2 v with
      | error e => exact rfl
      | ok og =>
          show BackRel T
            ((liftO Err.broadcast (ewB FloatVal.mul
                (((dataOf d sp).map1 (fun x =>
                    if (FloatVal.le (.fin (-1)) x && FloatVal.le x (.fin 1)) then x
                    else .nan)).map1
                  (fun x => FloatVal.div (.fin 1) (FloatVal.sub (.fin 1) (x.mul x)))) og)).bind
              (fun c => accumAt sp c gs1))
            ((liftO Err.broadcast (ewB FloatVal.mul
                (((dataOf d sp).map1 (fun x =>
                    if (FloatVal.le (.fin (-1)) x && FloatVal.le x (.fin 1)) then x
                    else .nan)).map1
                  (fun x => FloatVal.div (.fin 1) (FloatVal.sub (.fin 1) (x.mul x)))) og)).bind
              (fun c => accumAt sp c gs2))
          cases liftO Err.broadcast (ewB FloatVal.mul
              (((dataOf d sp).map1 (fun x =>
                  if (FloatVal.le (.fin (-1)) x && FloatVal.le x (.fin 1)) then x
                  else .nan)).map1
                (fun x => FloatVal.div (.fin 1) (FloatVal.sub (.fin 1) (x.mul x)))) og) with
          | error e => exact rfl
          | ok c => exact accumAt_rel T sp c gs1 gs2 hs hlen heq
  | sum sp ax =>
      have hs : sp ∈ T := hpar sp (by rw [hop]; simp [Op.parents])
      simp only [backstep, hop]
      rw [hng]
      cases needGrad gs2 v with
      | error e => exact rfl
      | ok og =>
          show BackRel T
            ((liftO Err.broadcast (expandDims og (normAxes (ndimOf g sp) ax))).bind
              (fun eg => (liftO Err.broadcast (bcast eg.shape (dataOf d sp).shape)).bind
                (fun bs => accumAt sp (bArr eg bs) gs1)))
            ((liftO Err.broadcast (expandDims og (normAxes (ndimOf g sp) ax))).bind
              (fun eg => (liftO Err.broadcast (bcast eg.shape (dataOf d sp).shape)).bind
                (fun bs => accumAt sp (bArr eg bs) gs2)))
          cases liftO Err.broadcast (expandDims og (normAxes (ndimOf g sp) ax)) with
          | error e => exact rfl
          | ok eg =>
              show BackRel T
                ((liftO Err.broadcast (bcast eg.shape (dataOf d sp).shape)).bind
                  (fun bs => accumAt sp (bArr eg bs) gs1))
                ((liftO Err.broadcast (bcast eg.shape (dataOf d sp).shape)).bind
                  (fun bs => accumAt sp (bArr eg bs) gs2))
              cases liftO Err.broadcast (bcast eg.shape (dataOf d sp).shape) with
              | error e => exact rfl
              | ok bs => exact accumAt_rel T sp (bArr eg bs) gs1 gs2 hs hlen heq
  | tdot l r k =>
      have hl : l ∈ T := hpar l (by rw [hop]; simp [Op.parents])
      have hr : r ∈ T := hpar r (by rw [hop]; simp [Op.parents])
      simp only [backstep, hop]
      rw [hng]
      cases needGrad gs2 v with
      | error e => exact rfl
      | ok og =>
          show BackRel T
            ((liftO Err.broadcast (tdotFn og (transposeT (dataOf d r))
                ((List.range (ndimOf g r - k)).map (fun j => (-1 : Int) - (j : Int)))
                ((List.range (ndimOf g r - k)).map (fun j => (j : Int))))).bind
              (fun cl => (accumAt l cl gs1).bind
                (fun gs' => (liftO Err.broadcast (tdotFn (transposeT (dataOf d l)) og
                    ((List.range (ndimOf g l - k)).map (fun j => (-1 : Int) - (j : Int)))
                    ((List.range (ndimOf g l - k)).map (fun j => (j : Int))))).bind
                  (fun cr => accumAt r cr gs'))))
            ((liftO Err.broadcast (tdotFn og (transposeT (dataOf d r))
                ((List.range (ndimOf g r - k)).map (fun j => (-1 : Int) - (j : Int)))
                ((List.range (ndimOf g r - k)).map (fun j => (j : Int))))).bind
              (fun cl => (accumAt l cl gs2).bind
                (fun gs' => (liftO Err.broadcast (tdotFn (transposeT (dataOf d l)) og
                    ((List.range (ndimOf g l - k)).map (fun j => (-1 : Int) - (j : Int)))
                    ((List.range (ndimOf g l - k)).map (fun j => (j : Int))))).bind
                  (fun cr => accumAt r cr gs'))))
          cases liftO Err.broadcast (tdotFn og (transposeT (dataOf d r))
              ((List.range (ndimOf g r - k)).map (fun j => (-1 : Int) - (j : Int)))
              ((List.range (ndimOf g r - k)).map (fun j => (j : Int)))) with
          | error e => exact rfl
          | ok cl =>
              refine backRel_bind T (accumAt_rel T l cl gs1 gs2 hl hlen heq) ?_
              intro a b hab heqab
              show BackRel T
                ((liftO Err.broadcast (tdotFn (transposeT (dataOf d l)) og
                    ((List.range (ndimOf g l - k)).map (fun j => (-1 : Int) - (j : Int)))
                    ((List.range (ndimOf g l - k)).map (fun j => (j : Int))))).bind
                  (fun cr => accumAt r cr a))
                ((liftO Err.broadcast (tdotFn (transposeT (dataOf d l)) og
                    ((List.range (ndimOf g l - k)).map (fun j => (-1 : Int) - (j : Int)))
                    ((List.range (ndimOf g l - k)).map (fun j => (j : Int))))).bind
                  (fun cr => accumAt r cr b))
              cases liftO Err.broadcast (tdotFn (transposeT (dataOf d l)) og
                  ((List.range (ndimOf g l - k)).map (fun j => (-1 : Int) - (j : Int)))
                  ((List.range (ndimOf g l - k)).map (fun j => (j : Int)))) with
              | error e => exact rfl
              | ok cr => exact accumAt_rel T r cr a b hr hab heqab

theorem bind_ok_decomp {a b : Type} {m : Except Err a} {f : a → Except Err b} {y : b}
    (h : m.bind f = .ok y) : ∃ x, m = .ok x ∧ f x = .ok y := by
  cases m with
  | error e => exact absurd h (by simp [Except.bind])
  | ok x => exact ⟨x, rfl, h⟩

theorem foldlM_backstep_rel (g : Graph) (d : DataSt) (T : List Nat) (L : List Nat)
    (hL : ∀ v ∈ L, v ∈ T) (hC : ParentsClosed g T) :
    ∀ (gs1 gs2 : GradSt), gs1.length = gs2.length →
      (∀ i ∈ T, gs1.getD i none = gs2.getD i none) →
      BackRel T (L.foldlM (fun a v => backstep g d v a) gs1)
        (L.foldlM (fun a v => backstep g d v a) gs2) := by
  induction L with
  | nil =>
      intro gs1 gs2 hlen heq
      exact ⟨hlen, heq⟩
  | cons v L' ih =>
      intro gs1 gs2 hlen heq
      show BackRel T ((backstep g d v gs1).bind
          (fun a => L'.foldlM (fun a v => backstep g d v a) a))
        ((backstep g d v gs2).bind
          (fun a => L'.foldlM (fun a v => backstep g d v a) a))
      have hvT : v ∈ T := hL v (by simp)
      refine backRel_bind T
        (backstep_rel g d T v hvT (fun q hq => hC v hvT q hq) gs1 gs2 hlen heq) ?_
      intro a b hab heqab
      exact ih (fun x hx => hL x (by simp [hx])) a b hab heqab

theorem getD_set_ne (gs : GradSt) (p : Nat) (x : Option Tensor) (i : Nat) (h : p ≠ i) :
    (gs.set p x).getD i none = gs.getD i none := by
  rw [getD_set_char]
  simp [h]

theorem accumAt_ok_set {p : Nat} {c : Tensor} {gs gs' : GradSt}
    (h : accumAt p c gs = .ok gs') : ∃ t, gs' = gs.set p (some t) := by
  have h' : (needGrad gs p).bind (fun gi => (iadd gi c).bind
      (fun gi2 => Except.ok (gs.set p (some gi2)))) = .ok gs' := h
  rcases bind_ok_decomp h' with ⟨gi, _, h2⟩
  rcases bind_ok_decomp h2 with ⟨gi2, _, h3⟩
  exact ⟨gi2, (Except.ok.inj h3).symm⟩

theorem backstep_ok_writes (g : Graph) (d : DataSt) (v : Nat) {gs gs' : GradSt}
    (h : backstep g d v gs = .ok gs') :
    gs'.length = gs.length ∧
    ∀ i, i ∉ (nodeOf g v).op.parents → gs'.getD i none = gs.getD i none := by
  cases hop : (nodeOf g v).op with
  | leaf =>
      simp only [backstep, hop] at h
      cases Except.ok.inj h
      exact ⟨rfl, fun i _ => rfl⟩
  | ph nm =>
      simp only [backstep, hop] at h
      cases Except.ok.inj h
      exact ⟨rfl, fun i _ => rfl⟩
  | add l r =>
      simp only [backstep, hop] at h
      rcases bind_ok_decomp h with ⟨og, _, h2⟩
      rcases bind_ok_decomp h2 with ⟨ga, ha, h3⟩
      rcases accumAt_ok_set ha with ⟨t1, rfl⟩
      rcases accumAt_ok_set h3 with ⟨t2, rfl⟩
      refine ⟨by simp, fun i hi => ?_⟩
      simp only [Op.parents, List.mem_cons, List.not_mem_nil] at hi
      push_neg at hi
      rw [getD_set_ne _ _ _ _ (fun hh => hi.2.1 hh.symm),
        getD_set_ne _ _ _ _ (fun hh => hi.1 hh.symm)]
  | mul l r =>
      simp only [backstep, hop] at h
      rcases bind_ok_decomp h with ⟨og, _, h2⟩
      rcases bind_ok_decomp h2 with ⟨pl, _, h3⟩
      rcases bind_ok_decomp h3 with ⟨ga, ha, h4⟩
      rcases bind_ok_decomp h4 with ⟨pr, _, h5⟩
      rcases accumAt_ok_set ha with ⟨t1, rfl⟩
      rcases accumAt_ok_set h5 with ⟨t2, rfl⟩
      refine ⟨by simp, fun i hi => ?_⟩
      simp only [Op.parents, List.mem_cons, List.not_mem_nil] at hi
      push_neg at hi
      rw [getD_set_ne _ _ _ _ (fun hh => hi.2.1 hh.symm),
        getD_set_ne _ _ _ _ (fun hh => hi.1 hh.symm)]
  | log sp =>
      simp only [backstep, hop] at h
      rcases bind_ok_decomp h with ⟨og, _, h2⟩
      rcases bind_ok_decomp h2 with ⟨c, _, h3⟩
      rcases accumAt_ok_set h3 with ⟨t1, rfl⟩
      refine ⟨by simp, fun i hi => ?_⟩
      simp only [Op.parents, List.mem_cons, List.not_mem_nil] at hi
      push_neg at hi
      rw [getD_set_ne _ _ _ _ (fun hh => hi.1 hh.symm)]
  | arctanh sp =>
      simp only [backstep, hop] at h
      rcases bind_ok_decomp h with ⟨og, _, h2⟩
      rcases bind_ok_decomp h2 with ⟨c, _, h3⟩
      rcases accumAt_ok_set h3 with ⟨t1, rfl⟩
      refine ⟨by simp, fun i hi => ?_⟩
      simp only [Op.parents, List.mem_cons, List.not_mem_nil] at hi
      push_neg at hi
      rw [getD_set_ne _ _ _ _ (fun hh => hi.1 hh.symm)]
  | sum sp ax =>
      simp only [backstep, hop] at h
      rcases bind_ok_decomp h with ⟨og, _, h2⟩
      rcases bind_ok_decomp h2 with ⟨eg, _, h3⟩
      rcases bind_ok_decomp h3 with ⟨bs, _, h4⟩
      rcases accumAt_ok_set h4 with ⟨t1, rfl⟩
      refine ⟨by simp, fun i hi => ?_⟩
      simp only [Op.parents, List.mem_cons, List.not_mem_nil] at hi
      push_neg at hi
      rw [getD_set_ne _ _ _ _ (fun hh => hi.1 hh.symm)]
  | tdot l r k =>
      simp only [backstep, hop] at h
      rcases bind_ok_decomp h with ⟨og, _, h2⟩
      rcases bind_ok_decomp h2 with ⟨cl, _, h3⟩
      rcases bind_ok_decomp h3 with ⟨ga, ha, h4⟩
      rcases bind_ok_decomp h4 with ⟨cr, _, h5⟩
      rcases accumAt_ok_set ha with ⟨t1, rfl⟩
      rcases accumAt_ok_set h5 with ⟨t2, rfl⟩
      refine ⟨by simp, fun i hi => ?_⟩
      simp only [Op.parents, List.mem_cons, List.not_mem_nil] at hi
      push_neg at hi
      rw [getD_set_ne _ _ _ _ (fun hh => hi.2.1 hh.symm),
        getD_set_ne _ _ _ _ (fun hh => hi.1 hh.symm)]

theorem foldlM_backstep_writes (g : Graph) (d : DataSt) (T : List Nat)
    (hC : ParentsClosed g T) :
    ∀ (L : List Nat), (∀ v ∈ L, v ∈ T) → ∀ (gs gs' : GradSt),
      L.foldlM (fun a v => backstep g d v a) gs = .ok gs' →
      gs'.length = gs.length ∧ ∀ i, i ∉ T → gs'.getD i none = gs.getD i none := by
  intro L
  induction L with
  | nil =>
      intro _ gs gs' h
      cases Except.ok.inj h
      exact ⟨rfl, fun i _ => rfl⟩
  | cons v L' ih =>
      intro hL gs gs' h
      have h' : (backstep g d v gs).bind
          (fun a => L'.foldlM (fun a v => backstep g d v a) a) = .ok gs' := h
      rcases bind_ok_decomp h' with ⟨a, hstep, hrest⟩
      have w1 := backstep_ok_writes g d v hstep
      have w2 := ih (fun x hx => hL x (by simp [hx])) a gs' hrest
      refine ⟨w2.1.trans w1.1, fun i hi => ?_⟩
      rw [w2.2 i hi, w1.2 i (fun hmem => hi (hC v (hL v (by simp)) i hmem))]

/-- C9: backward is idempotent at the public interface: on a well-formed
graph (every node's parents have smaller indices), if a first call to
backward succeeds with gradient state st1, calling backward again from
st1 succeeds and returns st1 unchanged, because each call re-seeds every
topological node's gradient before propagating. -/
theorem backward_idempotent (g : Graph) (root : Nat) (d : DataSt) (gs : GradSt)
    (hw : WFG g) (st1 : GradSt)
    (h1 : Value.backward g root d gs = .ok st1) :
    Value.backward g root d st1 = .ok st1 := by
  have hC : ParentsClosed g (topoList g root) := topoList_closed g root hw
  have hTrev : ∀ v ∈ (topoList g root).reverse, v ∈ topoList g root :=
    fun v hv => List.mem_reverse.mp hv
  have h1' : ((topoList g root).reverse).foldlM (fun a v => backstep g d v a)
      (seedGrads g root (topoList g root) gs) = .ok st1 := h1
  have hw1 := foldlM_backstep_writes g d (topoList g root) hC _ hTrev _ _ h1'
  have hlen1 : st1.length = gs.length := by
    rw [hw1.1, seedGrads_length]
  have hlen2 : (seedGrads g root (topoList g root) gs).length
      = (seedGrads g root (topoList g root) st1).length := by
    rw [seedGrads_length, seedGrads_length, hlen1]
  have heqT : ∀ i ∈ topoList g root,
      (seedGrads g root (topoList g root) gs).getD i none
        = (seedGrads g root (topoList g root) st1).getD i none := by
    intro i hi
    rw [seedGrads_getD, seedGrads_getD, hlen1]
    by_cases hil : i < gs.length
    · simp [hi, hil]
    · have hgi : gs.getD i none = none := getD_none_of_le (Nat.le_of_not_lt hil)
      have hsi : st1.getD i none = none := getD_none_of_le (by omega)
      rw [if_neg (fun hc => hil hc.2), if_neg (fun hc => hil hc.2), hgi, hsi]
  have hrel := foldlM_backstep_rel g d (topoList g root) _ hTrev hC _ _ hlen2 heqT
  show ((topoList g root).reverse).foldlM (fun a v => backstep g d v a)
      (seedGrads g root (topoList g root) st1) = .ok st1
  cases h2 : ((topoList g root).reverse).foldlM (fun a v => backstep g d v a)
      (seedGrads g root (topoList g root) st1) with
  | error e =>
      rw [h1', h2] at hrel
      exact hrel.elim
  | ok st2 =>
      rw [h1', h2] at hrel
      obtain ⟨hl12, he12⟩ := hrel
      have hw2 := foldlM_backstep_writes g d (topoList g root) hC _ hTrev _ _ h2
      have hst : st2 = st1 := by
        refine List.ext_getElem hl12.symm ?_
        intro n hn1 hn2
        have hg : st2.getD n none = st1.getD n none := by
          by_cases hnT : n ∈ topoList g root
          · exact (he12 n hnT).symm
          · rw [hw2.2 n hnT, seedGrads_getD]
            simp [hnT]
        rw [List.getD_eq_getElem?_getD, List.getD_eq_getElem?_getD,
          List.getElem?_eq_getElem hn1, List.getElem?_eq_getElem hn2] at hg
        simpa using hg
      rw [hst]

theorem backward_idempotent_witness :
    WFG c9g ∧ Value.backward c9g 2 c9d c9st = .ok c9st :=
  ⟨by decide, backward_idempotent c9g 2 c9d (noGrads c9g) (by decide) c9st (by decide)⟩
